import Mathlib

/-!
# Economy module: event-award ledger

A shallow embedding of `internal/discord/economy/repository.go` and of the
award loop and the module lifecycle (`Load`, `Enable`, `Disable`) of
`internal/discord/economy/economy.go`, over the tables declared in
`internal/database/models.go`.

Modelling conventions
* A table is the list of its rows, in insertion order.  The primary key `ID`
  is assigned by the store on `Create` (one more than the largest key in use).
* Go's `uint` is taken at 64 bits: values live in `Nat`, and every arithmetic
  operation of the source that can overflow is reduced modulo `2 ^ 64`.
* The store keeps a `uint` field in a signed 64-bit integer column.  A value
  of `2 ^ 63` or more does not fit: a store that refuses the write fails that
  write (a failure of `Faults`); a store that takes the write keeps a value
  that cannot be scanned back into `uint`, which is what a row holding
  `2 ^ 63` or more stands for.  `GetUserPoints` fails on such a row; inside
  `LogEvent` the read of step 5 failing on such a row is its failure
  `findUser`.
* Every call into the store may fail.  The failure of a call is an explicit
  boolean input of the operation issuing it (`true`: the call returns an error
  other than `gorm.ErrRecordNotFound` and has no effect).
* The `CreatedAt` / `UpdatedAt` columns, which gorm fills in from the wall
  clock, are left out of the rows.
* Calls to Discord are outputs (the commands registered, the identifiers
  deleted) and inputs (the members or commands Discord answers with).
* Concurrent `LogEvent` calls are calls in flight that take turns at the
  granularity of one store call.
-/

namespace Economy

/-! ## Tables (`internal/database/models.go`) -/

/-- Row of the master list of recognised events. -/
structure EconomyEventDefinition where
  ID : Nat
  Key : String
  Name : String
  Points : Nat
  MaxOccurrence : Nat
deriving DecidableEq, Repr

/-- Row logging one trigger of an event by a user. -/
structure UserEventLog where
  ID : Nat
  EconomyEventDefinitionID : Nat
  GuildSnowflake : String
  UserSnowflake : String
deriving DecidableEq, Repr

/-- Row holding the overall points of a user in a guild. -/
structure UserEconomy where
  ID : Nat
  GuildSnowflake : String
  UserSnowflake : String
  Points : Nat
deriving DecidableEq, Repr

/-- The three tables reached through `Repository.db` by the ledger code. -/
structure DB where
  defs : List EconomyEventDefinition
  logs : List UserEventLog
  users : List UserEconomy
deriving DecidableEq, Repr

/-- Number of values of Go's `uint` on a 64-bit platform. -/
def uintSize : Nat := 2 ^ 64

/-- Number of non-negative values of the signed 64-bit integer column the store
keeps a `uint` field in: a `uint` fits the column when it is below this. -/
def columnLimit : Nat := 2 ^ 63

/-- Errors a store call can return: `gorm.ErrRecordNotFound`, or anything else. -/
inductive DBError where
  | recordNotFound
  | other
deriving DecidableEq, Repr

/-! ## Store primitives -/

/-- The gorm query `First`: among the rows matching `p`, the one with the least
primary key (`ORDER BY id LIMIT 1`). -/
def First {α : Type} (id : α → Nat) (p : α → Bool) : List α → Option α
  | [] => none
  | r :: rs =>
    if p r then
      match First id p rs with
      | some b => if id b < id r then some b else some r
      | none => some r
    else First id p rs

/-- Result of `db.Where(...).First(&x).Error`: the row, `ErrRecordNotFound`
when no row matches, or another error when the call fails. -/
def queryFirst {α : Type} (fault : Bool) (id : α → Nat) (p : α → Bool)
    (rows : List α) : Except DBError α :=
  if fault then .error .other
  else match First id p rows with
    | some r => .ok r
    | none => .error .recordNotFound

/-- Primary key handed out by the store for a new row. -/
def freshID {α : Type} (id : α → Nat) (rows : List α) : Nat :=
  (rows.map id).foldr max 0 + 1

/-- Predicate of `Where("key = ?", k)`. -/
def keyIs (k : String) (d : EconomyEventDefinition) : Bool :=
  decide (d.Key = k)

/-- Predicate of
`Where("economy_event_definition_id = ? AND guild_snowflake = ? AND user_snowflake = ?", ...)`. -/
def logIs (defID : Nat) (guildID userID : String) (l : UserEventLog) : Bool :=
  decide (l.EconomyEventDefinitionID = defID) && decide (l.GuildSnowflake = guildID)
    && decide (l.UserSnowflake = userID)

/-- Predicate of `Where("guild_snowflake = ? AND user_snowflake = ?", ...)`. -/
def userIs (guildID userID : String) (ue : UserEconomy) : Bool :=
  decide (ue.GuildSnowflake = guildID) && decide (ue.UserSnowflake = userID)

/-- The query `Model(&UserEventLog{}).Where(...).Count(&count)` on a store that
answers. -/
def countLogs (db : DB) (defID : Nat) (guildID userID : String) : Nat :=
  (db.logs.filter (logIs defID guildID userID)).length

/-- The statement `Save(&ue)`, on a store that takes the write: a row whose
primary key is the zero value is inserted under a new key, any other row
replaces the stored row of that key.  When `ue.Points` is `columnLimit` or more
the column cannot hold it; the row then stands for what the store keeps, which
`scanUser` cannot read back. -/
def saveUser (users : List UserEconomy) (ue : UserEconomy) : List UserEconomy :=
  if ue.ID = 0 then users ++ [{ ue with ID := freshID UserEconomy.ID users }]
  else users.map (fun r => if r.ID = ue.ID then ue else r)

/-! ## `Repository.LogEvent` -/

/-- Store failures that can hit the six store calls of `LogEvent`. -/
structure Faults where
  findDef : Bool
  countLogs : Bool
  createLog : Bool
  findUser : Bool
  createUser : Bool
  saveUser : Bool
deriving DecidableEq, Repr

/-- The store answers every call. -/
def noFaults : Faults :=
  { findDef := false, countLogs := false, createLog := false,
    findUser := false, createUser := false, saveUser := false }

/-- The errors `LogEvent` returns. -/
inductive LogEventError where
  /-- Go: `fmt.Errorf("unknown event key [%s]: %w", eventKey, err)`. -/
  | unknownEvent (eventKey : String) (cause : DBError)
  /-- Go: `fmt.Errorf("MaxOccurrence for event [%s] reached", eventKey)`. -/
  | occurrenceLimitReached (eventKey : String)
  /-- An error of the store, returned as is. -/
  | store (cause : DBError)
deriving DecidableEq, Repr

/-- `Repository.LogEvent`: the store after the call and the returned error
(`none` for `nil`). -/
def LogEvent (f : Faults) (db : DB) (guildID userID eventKey : String) :
    DB × Option LogEventError :=
  -- 1) Lookup the event definition
  match queryFirst f.findDef EconomyEventDefinition.ID (keyIs eventKey) db.defs with
  | .error err => (db, some (.unknownEvent eventKey err))
  | .ok d =>
    -- 2) Count how many times they've triggered it; the error of `Count` is
    --    dropped and `count` keeps its zero value when the call fails
    let count : Nat := if f.countLogs then 0 else countLogs db d.ID guildID userID
    -- 3) If they've already hit the max, do nothing
    if 0 < d.MaxOccurrence ∧ d.MaxOccurrence ≤ count then
      (db, some (.occurrenceLimitReached eventKey))
    else
      -- 4) Insert a log row
      if f.createLog then (db, some (.store .other))
      else
        let logRow : UserEventLog :=
          { ID := freshID UserEventLog.ID db.logs, EconomyEventDefinitionID := d.ID,
            GuildSnowflake := guildID, UserSnowflake := userID }
        let db1 : DB := { db with logs := db.logs ++ [logRow] }
        -- 5) Upsert user's points in UserEconomy
        match queryFirst f.findUser UserEconomy.ID (userIs guildID userID) db1.users with
        | .error .recordNotFound =>
          -- Create brand new row
          if f.createUser then (db1, some (.store .other))
          else
            let ue : UserEconomy :=
              { ID := freshID UserEconomy.ID db1.users, GuildSnowflake := guildID,
                UserSnowflake := userID, Points := d.Points }
            ({ db1 with users := db1.users ++ [ue] }, none)
        | .error err => (db1, some (.store err))
        | .ok ue =>
          -- Otherwise update existing
          if f.saveUser then (db1, some (.store .other))
          else
            ({ db1 with users :=
                saveUser db1.users { ue with Points := (ue.Points + d.Points) % uintSize } },
              none)

/-! ## `Repository.GetUserPoints` -/

/-- Scanning the row a query found into a `UserEconomy`: what the signed 64-bit
column keeps of a `uint` of `columnLimit` or more cannot be scanned back, and
the query returns an error. -/
def scanUser (ue : UserEconomy) : Except DBError UserEconomy :=
  if ue.Points < columnLimit then .ok ue else .error .other

/-- `Repository.GetUserPoints`: the pair `(points, err)`. -/
def GetUserPoints (fault : Bool) (db : DB) (guildID userID : String) :
    Nat × Option DBError :=
  match (queryFirst fault UserEconomy.ID (userIs guildID userID) db.users).bind scanUser with
  | .error .recordNotFound => (0, none)
  | .error err => (0, some err)
  | .ok ue => (ue.Points, none)

/-! ## `Repository.GetTopUsers` -/

/-- The clause `Order("points DESC")`: rows by decreasing points.  The store is
free to order rows of equal points as it likes; here they keep their order. -/
def orderByPointsDesc (rows : List UserEconomy) : List UserEconomy :=
  rows.insertionSort (fun a b => b.Points ≤ a.Points)

instance : IsTotal UserEconomy (fun a b => b.Points ≤ a.Points) :=
  ⟨fun a b => Nat.le_total b.Points a.Points⟩

instance : IsTrans UserEconomy (fun a b => b.Points ≤ a.Points) :=
  ⟨fun _ _ _ hab hbc => Nat.le_trans hbc hab⟩

/-- `Repository.GetTopUsers`, for a positive `limit` (what gorm does with a
`Limit` that is not positive depends on its version and is not modelled). -/
def GetTopUsers (fault : Bool) (db : DB) (guildID : String) (limit : Nat) :
    Except DBError (List UserEconomy) :=
  if fault then .error .other
  else .ok ((orderByPointsDesc
    (db.users.filter (fun ue => decide (ue.GuildSnowflake = guildID)))).take limit)

/-! ## `Repository.SeedDefaultEvents` -/

/-- The slice `defaults` of `SeedDefaultEvents`. -/
def defaults : List EconomyEventDefinition :=
  [ { ID := 0, Key := "DAILY", Name := "Daily Reward", Points := 85, MaxOccurrence := 1 },
    { ID := 0, Key := "JOIN_SERVER", Name := "Join the server", Points := 213,
      MaxOccurrence := 1 },
    { ID := 0, Key := "FIRST_MESSAGE", Name := "Send first message", Points := 425,
      MaxOccurrence := 1 },
    { ID := 0, Key := "BIRTHDAY_SET", Name := "Set your birthday", Points := 595,
      MaxOccurrence := 1 },
    { ID := 0, Key := "RESPOND_DAILY_ENGAGEMENT", Name := "Respond to Daily Engagement",
      Points := 850, MaxOccurrence := 1 },
    { ID := 0, Key := "VERIFY_ACCOUNT", Name := "Verify Account", Points := 850,
      MaxOccurrence := 1 },
    { ID := 0, Key := "BOOST_SERVER", Name := "Boost server", Points := 3570,
      MaxOccurrence := 1 },
    { ID := 0, Key := "SUBMIT_DEPOSIT", Name := "Submit enrollment deposit", Points := 34000,
      MaxOccurrence := 1 },
    { ID := 0, Key := "SOCIAL_MEDIA_ENGAGEMENT", Name := "Social Media Engagement",
      Points := 850, MaxOccurrence := 1 } ]

/-- Store failures that can hit the two store calls of one round of the
seeding loop. -/
structure SeedFaults where
  find : Bool
  create : Bool
deriving DecidableEq, Repr

/-- The statement `Create(&evt)` on the definitions table, for a row whose `ID`
is the zero value: the store assigns the key; the insert is refused when the
call fails or when the unique index on `Key` already holds that key. -/
def createDef (fault : Bool) (defs : List EconomyEventDefinition)
    (evt : EconomyEventDefinition) : Except DBError (List EconomyEventDefinition) :=
  if fault || defs.any (keyIs evt.Key) then .error .other
  else .ok (defs ++ [{ evt with ID := freshID EconomyEventDefinition.ID defs }])

/-- The loop `for _, evt := range defaults` of `SeedDefaultEvents`, over the
rest of the slice; `faults` gives the failures of the round of each key. -/
def seedLoop (faults : String → SeedFaults) :
    List EconomyEventDefinition → DB → DB × Option DBError
  | [], db => (db, none)
  | evt :: rest, db =>
    match queryFirst (faults evt.Key).find EconomyEventDefinition.ID (keyIs evt.Key) db.defs with
    | .error .recordNotFound =>
      -- Insert
      match createDef (faults evt.Key).create db.defs evt with
      | .error err => (db, some err)
      | .ok defs1 => seedLoop faults rest { db with defs := defs1 }
    | .error err => (db, some err)
    | .ok _ => seedLoop faults rest db

/-- `Repository.SeedDefaultEvents`: the store after the call and the returned
error. -/
def SeedDefaultEvents (faults : String → SeedFaults) (db : DB) : DB × Option DBError :=
  seedLoop faults defaults db

/-- No round of the seeding loop meets a store failure. -/
def noSeedFaults : String → SeedFaults :=
  fun _ => { find := false, create := false }

/-! ## `Economy.handleGiveAllCommand` -/

/-- The fields of `discordgo.User` the handler reads. -/
structure User where
  ID : String
  Bot : Bool
deriving DecidableEq, Repr

/-- The field of `discordgo.Member` the handler reads. -/
structure Member where
  User : User
deriving DecidableEq, Repr

/-- The fields of `discordgo.MessageEmbed` the handlers fill in. -/
structure MessageEmbed where
  Title : String
  Description : String
  Color : Nat
deriving DecidableEq, Repr

/-- The loop `for _, mem := range members` of `handleGiveAllCommand`, over the
rest of the members, with the running `count`.  The head of `sched` gives the
store failures of the next `LogEvent` call (none once `sched` is used up). -/
def giveAllLoop (guildID eventKey : String) :
    List Member → List Faults → DB → Nat → DB × Nat
  | [], _, db, count => (db, count)
  | mem :: rest, sched, db, count =>
    if mem.User.Bot then giveAllLoop guildID eventKey rest sched db count
    else
      let r := LogEvent (sched.headD noFaults) db guildID mem.User.ID eventKey
      giveAllLoop guildID eventKey rest sched.tail r.1
        (if r.2 = none then count + 1 else count)

/-- `Economy.handleGiveAllCommand`: `opts` are the string values of the
command options, `members` the answer of `s.GuildMembers(guildID, "", 1000)`
(`none` when that call fails).  Returns the store after the call and the embed
sent back. -/
def handleGiveAllCommand (sched : List Faults) (db : DB) (guildID : String)
    (opts : List String) (members : Option (List Member)) : DB × MessageEmbed :=
  match opts with
  | [] =>
    (db, { Title := "Usage Error", Description := "Usage: /giveall event:<event_key>",
           Color := 0xFF0000 })
  | eventKey :: _ =>
    match members with
    | none =>
      (db, { Title := "Error Retrieving Guild Members",
             Description := "Could not fetch guild members. Try again later?",
             Color := 0xFF0000 })
    | some ms =>
      let r := giveAllLoop guildID eventKey ms sched db 0
      (r.1, { Title := "Mass Award Complete",
              Description := "Event [" ++ eventKey ++ "] awarded to " ++ toString r.2
                ++ " members!",
              Color := 0x00FF00 })

/-! ## Sequences of calls, and the quantities the specification speaks of -/

/-- One call of `LogEvent`: its arguments and the store failures it meets. -/
structure Call where
  faults : Faults
  guildID : String
  userID : String
  eventKey : String
deriving DecidableEq, Repr

/-- The store after the calls have run one after another. -/
def runCalls (db : DB) (calls : List Call) : DB :=
  calls.foldl (fun s c => (LogEvent c.faults s c.guildID c.userID c.eventKey).1) db

/-- Points of the definition a log row refers to, `0` when the catalog has no
definition under that primary key. -/
def pointsOfLog (defs : List EconomyEventDefinition) (l : UserEventLog) : Nat :=
  match First EconomyEventDefinition.ID
      (fun d => decide (d.ID = l.EconomyEventDefinitionID)) defs with
  | some d => d.Points
  | none => 0

/-- Sum of the points of the definitions referred to by the log rows of a user
in a guild. -/
def ledgerSum (db : DB) (guildID userID : String) : Nat :=
  ((db.logs.filter (fun l =>
      decide (l.GuildSnowflake = guildID) && decide (l.UserSnowflake = userID))).map
    (pointsOfLog db.defs)).sum

/-- Occurrence bound: no user of no guild has more log rows of a limited
definition than its `MaxOccurrence`. -/
def LimitInv (db : DB) : Prop :=
  ∀ d ∈ db.defs, 0 < d.MaxOccurrence →
    ∀ guildID userID : String, countLogs db d.ID guildID userID ≤ d.MaxOccurrence

/-- Primary keys of a table: pairwise distinct and never the zero value. -/
def ValidKeys {α : Type} (id : α → Nat) (rows : List α) : Prop :=
  (rows.map id).Nodup ∧ ∀ r ∈ rows, id r ≠ 0

instance {α : Type} (id : α → Nat) (rows : List α) : Decidable (ValidKeys id rows) := by
  unfold ValidKeys
  infer_instance

/-- Specification of the fan-out award, in the words of section 4.2 of the
specification (`awardEventToAll(guildID, eventKey, candidateUserIDs)`): it calls
`awardEvent` (`LogEvent`) once per candidate, continues past a failed award,
and returns the store with the count of successful awards and the count
attempted. -/
def awardEventToAll_spec (guildID eventKey : String) :
    List String → List Faults → DB → DB × Nat × Nat
  | [], _, db => (db, 0, 0)
  | userID :: rest, sched, db =>
    let r := LogEvent (sched.headD noFaults) db guildID userID eventKey
    let t := awardEventToAll_spec guildID eventKey rest sched.tail r.1
    (t.1, (if r.2 = none then 1 else 0) + t.2.1, 1 + t.2.2)

/-- The candidates of the mass award: the identifiers of the members that are
not bots, in order. -/
def candidates (members : List Member) : List String :=
  (members.filter (fun m => !m.User.Bot)).map (fun m => m.User.ID)

/-- The `LogEvent` calls of a mass award, one per candidate, in order. -/
def callsFor (guildID eventKey : String) : List String → List Faults → List Call
  | [], _ => []
  | userID :: rest, sched =>
    { faults := sched.headD noFaults, guildID := guildID, userID := userID,
      eventKey := eventKey } :: callsFor guildID eventKey rest sched.tail

/-- The log row step 4 of `LogEvent` inserts for definition `d`. -/
def newLogRow (db : DB) (d : EconomyEventDefinition) (guildID userID : String) :
    UserEventLog :=
  { ID := freshID UserEventLog.ID db.logs, EconomyEventDefinitionID := d.ID,
    GuildSnowflake := guildID, UserSnowflake := userID }

/-- The points written in the `UserEconomy` row of a user in a guild, `0` when
there is no row. -/
def userTotal (db : DB) (guildID userID : String) : Nat :=
  match First UserEconomy.ID (userIs guildID userID) db.users with
  | some ue => ue.Points
  | none => 0

/-- Aggregate invariant, up to the width of `uint`: user rows carry valid
primary keys and the points written in every row are the ledger sum reduced
modulo `2 ^ 64`. -/
def AggInv (db : DB) : Prop :=
  ValidKeys UserEconomy.ID db.users ∧
    ∀ guildID userID : String,
      userTotal db guildID userID = ledgerSum db guildID userID % uintSize

/-- No store failure in step 5 of `LogEvent`. -/
def Faults.upsertOK (f : Faults) : Prop :=
  f.findUser = false ∧ f.createUser = false ∧ f.saveUser = false

instance (f : Faults) : Decidable f.upsertOK := by
  unfold Faults.upsertOK
  infer_instance

/-- The guard of step 3, on the count the code holds after step 2. -/
def limitHit (f : Faults) (db : DB) (d : EconomyEventDefinition)
    (guildID userID : String) : Prop :=
  0 < d.MaxOccurrence ∧
    d.MaxOccurrence ≤ (if f.countLogs then 0 else countLogs db d.ID guildID userID)

/-- The store between step 4 and step 5. -/
def afterInsert (db : DB) (d : EconomyEventDefinition) (guildID userID : String) : DB :=
  { db with logs := db.logs ++ [newLogRow db d guildID userID] }

/-- The paths through `LogEvent`. -/
inductive LogEventPath (f : Faults) (db : DB) (guildID userID eventKey : String) :
    DB × Option LogEventError → Prop where
  | unknown (e : DBError)
      (h : queryFirst f.findDef EconomyEventDefinition.ID (keyIs eventKey) db.defs = .error e) :
      LogEventPath f db guildID userID eventKey (db, some (.unknownEvent eventKey e))
  | limit (d : EconomyEventDefinition)
      (h : queryFirst f.findDef EconomyEventDefinition.ID (keyIs eventKey) db.defs = .ok d)
      (hg : limitHit f db d guildID userID) :
      LogEventPath f db guildID userID eventKey (db, some (.occurrenceLimitReached eventKey))
  | insertFailed (d : EconomyEventDefinition)
      (h : queryFirst f.findDef EconomyEventDefinition.ID (keyIs eventKey) db.defs = .ok d)
      (hg : ¬ limitHit f db d guildID userID) (hc : f.createLog = true) :
      LogEventPath f db guildID userID eventKey (db, some (.store .other))
  | upsertFailed (d : EconomyEventDefinition)
      (h : queryFirst f.findDef EconomyEventDefinition.ID (keyIs eventKey) db.defs = .ok d)
      (hg : ¬ limitHit f db d guildID userID) (hc : f.createLog = false)
      (hu : f.findUser = true ∨ f.createUser = true ∨ f.saveUser = true) :
      LogEventPath f db guildID userID eventKey
        (afterInsert db d guildID userID, some (.store .other))
  | created (d : EconomyEventDefinition)
      (h : queryFirst f.findDef EconomyEventDefinition.ID (keyIs eventKey) db.defs = .ok d)
      (hg : ¬ limitHit f db d guildID userID) (hc : f.createLog = false)
      (hu : f.findUser = false)
      (hnone : First UserEconomy.ID (userIs guildID userID) db.users = none)
      (hcu : f.createUser = false) :
      LogEventPath f db guildID userID eventKey
        ({ afterInsert db d guildID userID with
            users := db.users ++ [{ ID := freshID UserEconomy.ID db.users,
                                    GuildSnowflake := guildID, UserSnowflake := userID,
                                    Points := d.Points }] }, none)
  | updated (d : EconomyEventDefinition) (ue : UserEconomy)
      (h : queryFirst f.findDef EconomyEventDefinition.ID (keyIs eventKey) db.defs = .ok d)
      (hg : ¬ limitHit f db d guildID userID) (hc : f.createLog = false)
      (hu : f.findUser = false)
      (hsome : First UserEconomy.ID (userIs guildID userID) db.users = some ue)
      (hsu : f.saveUser = false) :
      LogEventPath f db guildID userID eventKey
        ({ afterInsert db d guildID userID with
            users := saveUser db.users
              { ue with Points := (ue.Points + d.Points) % uintSize } }, none)

/-! ## Sample stores -/

/-- The catalog left by seeding an empty store. -/
def seededDB : DB :=
  (SeedDefaultEvents noSeedFaults { defs := [], logs := [], users := [] }).1

/-- The seeded catalog with five user rows in `G1` and one in `G2`. -/
def boardDB : DB :=
  { seededDB with
    users := [{ ID := 1, GuildSnowflake := "G1", UserSnowflake := "U1", Points := 85 },
              { ID := 2, GuildSnowflake := "G1", UserSnowflake := "U2", Points := 37570 },
              { ID := 3, GuildSnowflake := "G2", UserSnowflake := "U1", Points := 99999 },
              { ID := 4, GuildSnowflake := "G1", UserSnowflake := "U3", Points := 298 },
              { ID := 5, GuildSnowflake := "G1", UserSnowflake := "U4", Points := 85 },
              { ID := 6, GuildSnowflake := "G1", UserSnowflake := "U5", Points := 3570 }] }

/-- Three members and a bot. -/
def threeMembers : List Member :=
  [{ User := { ID := "U1", Bot := false } }, { User := { ID := "BOT", Bot := true } },
   { User := { ID := "U2", Bot := false } }, { User := { ID := "U3", Bot := false } }]

/-- Two of the three members. -/
def twoMembers : List Member :=
  [{ User := { ID := "U2", Bot := false } }, { User := { ID := "U3", Bot := false } }]

/-- A catalog in which an administrator edited the points and the limit of
`DAILY`, and nothing else is defined yet. -/
def editedDB : DB :=
  { defs := [{ ID := 7, Key := "DAILY", Name := "Daily Reward", Points := 100,
               MaxOccurrence := 2 }],
    logs := [], users := [] }

/-- A call of `LogEvent` on a store that answers. -/
def award (guildID userID eventKey : String) : Call :=
  { faults := noFaults, guildID := guildID, userID := userID, eventKey := eventKey }

/-- A catalog with one unlimited event worth `2 ^ 62` points, and an empty
ledger. -/
def jackpotDB : DB :=
  { defs := [{ ID := 1, Key := "JACKPOT", Name := "Jackpot", Points := 2 ^ 62,
               MaxOccurrence := 0 }],
    logs := [], users := [] }

/-- The seeded catalog, with one user holding the largest total the points
column can hold. -/
def richDB : DB :=
  { seededDB with
    users := [{ ID := 1, GuildSnowflake := "G1", UserSnowflake := "U1",
                Points := 2 ^ 63 - 1 }] }

/-- The store fails when step 5 of `LogEvent` reads the user row. -/
def findUserFails : Faults := { noFaults with findUser := true }

/-- The seeded store after `U1` claimed `DAILY` in `G1`. -/
def claimedDB : DB := (LogEvent noFaults seededDB "G1" "U1" "DAILY").1

/-- The seeded store after `U2` was awarded `BOOST_SERVER` in `G1`. -/
def boostedDB : DB := (LogEvent noFaults seededDB "G1" "U2" "BOOST_SERVER").1

/-! ## Module lifecycle (`economy.go`, `commands.go`, `Module` of `models.go`) -/

/-- The constant `name` of the economy module. -/
def name : String := "Economy"

/-- The constant `description` of the economy module. -/
def description : String := "Points & achievements system"

/-- The fields of `discordgo.ApplicationCommand` the lifecycle code reads (the
options of the commands are left out). -/
structure ApplicationCommand where
  ID : String
  Name : String
  Description : String
deriving DecidableEq, Repr

/-- The slice `commands` of `commands.go`. -/
def commands : List ApplicationCommand :=
  [ { ID := "", Name := "daily", Description := "Claim your daily reward" },
    { ID := "", Name := "leaderboard",
      Description := "Show the top server members by points" },
    { ID := "", Name := "give", Description := "Give an event-based reward to a user" },
    { ID := "", Name := "giveall",
      Description := "Give an event-based reward to everyone in the server" } ]

/-- A Go `map[string]bool`; `none` is the nil map. -/
abbrev CmdMap := Option (List (String × Bool))

/-- The read `m[k]` with its `ok` flag: `none` when the key has no entry. -/
def mapGet (m : CmdMap) (k : String) : Option Bool :=
  match m with
  | none => none
  | some l => l.lookup k

/-- The assignment `m[k] = v`; `none` is the run-time panic of an assignment
to an entry of the nil map. -/
def mapSet (m : CmdMap) (k : String) (v : Bool) : Option CmdMap :=
  match m with
  | none => none
  | some l =>
    if (l.lookup k).isSome then some (some (l.map (fun e => if e.1 = k then (k, v) else e)))
    else some (some (l ++ [(k, v)]))

/-- Content of a `datatypes.JSON` column holding command flags, by what
`json.Unmarshal` into a `map[string]bool` makes of it: an error, the JSON value
`null` (the map stays nil), or an object. -/
inductive CommandsJSON where
  | malformed
  | null
  | object (flags : List (String × Bool))
deriving DecidableEq, Repr

/-- The call `json.Unmarshal([]byte(mod.Commands), &cmds)` on a nil `cmds`;
`none` is an error. -/
def unmarshalCommands : CommandsJSON → Option CmdMap
  | .malformed => none
  | .null => some none
  | .object flags => some (some flags)

/-- The call `json.Marshal(cmds)`, which cannot fail on a `map[string]bool`. -/
def marshalCommands : CmdMap → CommandsJSON
  | none => .null
  | some flags => .object flags

/-- Row of the table of modules. -/
structure Module where
  ID : Nat
  GuildSnowflake : String
  Name : String
  Description : String
  Enabled : Bool
  Config : String
  Commands : CommandsJSON
deriving DecidableEq, Repr

/-- The store reached through `Repository.db`: the ledger tables and the table
of modules (which the other modules of the bot share). -/
structure Store where
  db : DB
  modules : List Module
deriving DecidableEq, Repr

/-- Predicate of `"name = ? AND guild_snowflake = ?"` with the constant `name`. -/
def moduleIs (guildSnowflake : String) (m : Module) : Bool :=
  decide (m.Name = name) && decide (m.GuildSnowflake = guildSnowflake)

/-- The statement `Save(m)` on the table of modules: a row whose primary key is
the zero value is inserted under a new key, any other row replaces the stored
row of that key. -/
def saveModule (modules : List Module) (m : Module) : List Module :=
  if m.ID = 0 then modules ++ [{ m with ID := freshID Module.ID modules }]
  else modules.map (fun r => if r.ID = m.ID then m else r)

/-- `Repository.CreateModule`, for a row whose `ID` is the zero value. -/
def CreateModule (fault : Bool) (st : Store) (mod : Module) : Store × Except DBError Module :=
  if fault then (st, .error .other)
  else
    ({ st with modules := st.modules ++ [{ mod with ID := freshID Module.ID st.modules }] },
      .ok { mod with ID := freshID Module.ID st.modules })

/-- `Repository.ReadModule`. -/
def ReadModule (fault : Bool) (st : Store) (guildSnowflake : String) : Except DBError Module :=
  queryFirst fault Module.ID (moduleIs guildSnowflake) st.modules

/-- `Repository.UpdateModule`; `findFault` and `saveFault` are the failures of
its two store calls. -/
def UpdateModule (findFault saveFault : Bool) (st : Store) (mod : Module) :
    Store × Except DBError Module :=
  match queryFirst findFault Module.ID (moduleIs mod.GuildSnowflake) st.modules with
  | .error err => (st, .error err)
  | .ok m =>
    if saveFault then (st, .error .other)
    else
      let m1 : Module :=
        { m with Enabled := mod.Enabled, Config := mod.Config, Commands := mod.Commands }
      ({ st with modules := saveModule st.modules m1 }, .ok m1)

/-- Store failures that can hit the store calls of `Load`, `Enable` and
`Disable` on the table of modules. -/
structure ModuleFaults where
  read : Bool
  create : Bool
  updateFind : Bool
  updateSave : Bool
deriving DecidableEq, Repr

/-- The store answers every call on the table of modules. -/
def noModuleFaults : ModuleFaults :=
  { read := false, create := false, updateFind := false, updateSave := false }

/-- The errors `Load`, `Enable` and `Disable` return. -/
inductive ModuleError where
  /-- Go: `ErrModuleAlreadyEnabled`. -/
  | alreadyEnabled
  /-- Go: `ErrModuleAlreadyDisabled`. -/
  | alreadyDisabled
  /-- An error of the store, returned as is. -/
  | store (cause : DBError)
  /-- Go: `fmt.Errorf("unmarshal commands: %w", err)`. -/
  | unmarshalCommands
  /-- Go: `fmt.Errorf("unable to fetch remote commands: %w", err)`. -/
  | fetchRemote
  /-- Go: `fmt.Errorf("unable to create economy module: %w", err)`. -/
  | createModule (cause : DBError)
  /-- Go: `fmt.Errorf("unable to read economy module from DB: %w", err)`. -/
  | readModule (cause : DBError)
  /-- Go: `fmt.Errorf("failed to seed economy events: %w", err)`. -/
  | seedEvents (cause : DBError)
  /-- Go: `fmt.Errorf("critical error unmarshalling command map: %w", err)`. -/
  | criticalUnmarshal
  /-- Go: `fmt.Errorf("unable to update economy module commands: %w", err)`. -/
  | updateCommands (cause : DBError)
deriving DecidableEq, Repr

/-- The commands handed to `session.ApplicationCommandCreate`: those whose flag
reads `true` (an error of that call is logged and dropped). -/
def registered (cmds : CmdMap) : List ApplicationCommand :=
  commands.filter (fun cmd => mapGet cmds cmd.Name = some true)

/-- `Economy.Enable` for the guild of the receiver: the store after the call,
the returned error and the commands registered at Discord. -/
def Enable (f : ModuleFaults) (st : Store) (guildSnowflake : String) :
    Store × Option ModuleError × List ApplicationCommand :=
  match ReadModule f.read st guildSnowflake with
  | .error err => (st, some (.store err), [])
  | .ok mod =>
    if mod.Enabled then (st, some .alreadyEnabled, [])
    else
      match UpdateModule f.updateFind f.updateSave st { mod with Enabled := true } with
      | (st1, .error err) => (st1, some (.store err), [])
      | (st1, .ok _) =>
        -- register commands
        match unmarshalCommands mod.Commands with
        | none => (st1, some .unmarshalCommands, [])
        | some cmds => (st1, none, registered cmds)

/-- `Economy.Disable` for the guild of the receiver; `remote` is the answer of
`session.ApplicationCommands` (`none` when that call fails).  Returns the store
after the call, the returned error and the identifiers handed to
`session.ApplicationCommandDelete`. -/
def Disable (f : ModuleFaults) (st : Store) (guildSnowflake : String)
    (remote : Option (List ApplicationCommand)) :
    Store × Option ModuleError × List String :=
  match ReadModule f.read st guildSnowflake with
  | .error err => (st, some (.store err), [])
  | .ok mod =>
    if !mod.Enabled then (st, some .alreadyDisabled, [])
    else
      match UpdateModule f.updateFind f.updateSave st { mod with Enabled := false } with
      | (st1, .error err) => (st1, some (.store err), [])
      | (st1, .ok _) =>
        -- remove relevant commands from Discord
        match remote with
        | none => (st1, some .fetchRemote, [])
        | some cs =>
          (st1, none,
            cs.flatMap (fun c =>
              (commands.filter (fun known => decide (c.Name = known.Name))).map (fun _ => c.ID)))

/-- How a call ends: it returns (`err` is `none` for `nil`), or the Go run time
panics. -/
inductive Outcome where
  | returned (err : Option ModuleError)
  | panicked
deriving DecidableEq, Repr

/-- The loop `for _, cmd := range commands` that fills the default `cmdMap` of
`Load`, over the rest of the slice. -/
def defaultCmdMap : List ApplicationCommand → CmdMap → CmdMap
  | [], cmdMap => cmdMap
  | cmd :: rest, cmdMap =>
    match mapSet cmdMap cmd.Name true with
    | some cmdMap1 => defaultCmdMap rest cmdMap1
    | none => none

/-- The loop of step 5 of `Load` over the rest of `commands`, with the running
`updated` flag; `none` is a panic. -/
def reconcile : List ApplicationCommand → CmdMap → Bool → Option (CmdMap × Bool)
  | [], cmds, updated => some (cmds, updated)
  | cmd :: rest, cmds, updated =>
    match mapGet cmds cmd.Name with
    | some _ => reconcile rest cmds updated
    | none =>
      -- new command not in DB yet
      match mapSet cmds cmd.Name true with
      | none => none
      | some cmds1 => reconcile rest cmds1 true

/-- `Economy.Load` for the guild of the receiver: the store after the call, how
the call ended and the commands registered at Discord.  `seed` gives the store
failures met by `SeedDefaultEvents`. -/
def Load (f : ModuleFaults) (seed : String → SeedFaults) (st : Store)
    (guildSnowflake : String) : Store × Outcome × List ApplicationCommand :=
  -- 1) Check DB for existing module row or create one if none
  let found : Store × Except ModuleError Module :=
    match ReadModule f.read st guildSnowflake with
    | .error .recordNotFound =>
      let insert : Module :=
        { ID := 0, GuildSnowflake := guildSnowflake, Name := name,
          Description := description, Enabled := true, Config := "\x7b\x7d",
          Commands := marshalCommands (defaultCmdMap commands (some [])) }
      match CreateModule f.create st insert with
      | (st1, .error err) => (st1, .error (.createModule err))
      | (st1, .ok mod) => (st1, .ok mod)
    | .error err => (st, .error (.readModule err))
    | .ok mod => (st, .ok mod)
  match found with
  | (st0, .error err) => (st0, .returned (some err), [])
  | (st0, .ok mod) =>
    -- 2) Seed default events like "DAILY" if they don't exist
    match SeedDefaultEvents seed st0.db with
    | (db1, some err) => ({ st0 with db := db1 }, .returned (some (.seedEvents err)), [])
    | (db1, none) =>
      let st1 : Store := { st0 with db := db1 }
      -- 3) If the module is disabled, skip command registration
      if !mod.Enabled then (st1, .returned none, [])
      else
        -- 4) Unmarshal command map to see which slash commands are toggled on
        match unmarshalCommands mod.Commands with
        | none => (st1, .returned (some .criticalUnmarshal), [])
        | some cmds =>
          -- 5) Register slash commands for those that are enabled
          match reconcile commands cmds false with
          | none => (st1, .panicked, [])
          | some (cmds1, updated) =>
            if updated then
              match UpdateModule f.updateFind f.updateSave st1
                  { mod with Commands := marshalCommands cmds1 } with
              | (st2, .error err) => (st2, .returned (some (.updateCommands err)), [])
              | (st2, .ok _) => (st2, .returned none, registered cmds1)
            else (st1, .returned none, registered cmds1)

/-! ## Sample module rows -/

/-- A store with no module row and empty ledger tables. -/
def emptyStore : Store :=
  { db := { defs := [], logs := [], users := [] }, modules := [] }

/-- The ledger of `claimedDB`, with a moderation module row for `G1` and a
disabled economy module row for `G1` that knows the flag of `daily` only. -/
def disabledStore : Store :=
  { db := claimedDB,
    modules := [{ ID := 1, GuildSnowflake := "G1", Name := "Moderation", Description := "",
                  Enabled := true, Config := "\x7b\x7d", Commands := .object [] },
                { ID := 2, GuildSnowflake := "G1", Name := "Economy",
                  Description := "Points & achievements system", Enabled := false,
                  Config := "\x7b\x7d", Commands := .object [("daily", false)] }] }

/-- As `disabledStore`, with the economy module row enabled. -/
def enabledStore : Store :=
  { db := claimedDB,
    modules := [{ ID := 1, GuildSnowflake := "G1", Name := "Moderation", Description := "",
                  Enabled := true, Config := "\x7b\x7d", Commands := .object [] },
                { ID := 2, GuildSnowflake := "G1", Name := "Economy",
                  Description := "Points & achievements system", Enabled := true,
                  Config := "\x7b\x7d", Commands := .object [("daily", false)] }] }

/-! ## Calls of `LogEvent` in flight -/

/-- Where a `LogEvent` call in flight stands, between two of its store calls,
with the local variables it holds. -/
inductive Progress where
  /-- Before step 1. -/
  | start
  /-- After the lookup of step 1, holding `def`. -/
  | looked (d : EconomyEventDefinition)
  /-- After the `Count` of step 2, holding `def` and `count`. -/
  | counted (d : EconomyEventDefinition) (count : Nat)
  /-- After the insert of step 4. -/
  | inserted (d : EconomyEventDefinition)
  /-- After the read of step 5, holding the row found (`none`: no record). -/
  | found (d : EconomyEventDefinition) (ue : Option UserEconomy)
  /-- Returned; `none` is `nil`. -/
  | done (err : Option LogEventError)
deriving DecidableEq, Repr

/-- One store call of a `LogEvent` call in flight, with the local computation
that follows it in the source: the store and the progress of the call
afterwards.  Each store call is one statement sent to the store, outside any
transaction. -/
def stepCall (c : Call) (db : DB) : Progress → DB × Progress
  | .start =>
    -- 1) Lookup the event definition
    match queryFirst c.faults.findDef EconomyEventDefinition.ID (keyIs c.eventKey) db.defs with
    | .error err => (db, .done (some (.unknownEvent c.eventKey err)))
    | .ok d => (db, .looked d)
  | .looked d =>
    -- 2) Count how many times they've triggered it
    (db, .counted d (if c.faults.countLogs then 0 else countLogs db d.ID c.guildID c.userID))
  | .counted d count =>
    -- 3) If they've already hit the max, do nothing
    if 0 < d.MaxOccurrence ∧ d.MaxOccurrence ≤ count then
      (db, .done (some (.occurrenceLimitReached c.eventKey)))
    else
      -- 4) Insert a log row
      if c.faults.createLog then (db, .done (some (.store .other)))
      else
        ({ db with logs := db.logs ++
            [{ ID := freshID UserEventLog.ID db.logs, EconomyEventDefinitionID := d.ID,
               GuildSnowflake := c.guildID, UserSnowflake := c.userID }] }, .inserted d)
  | .inserted d =>
    -- 5) Upsert user's points in UserEconomy: the read
    match queryFirst c.faults.findUser UserEconomy.ID (userIs c.guildID c.userID) db.users with
    | .error .recordNotFound => (db, .found d none)
    | .error err => (db, .done (some (.store err)))
    | .ok ue => (db, .found d (some ue))
  | .found d none =>
    -- Create brand new row
    if c.faults.createUser then (db, .done (some (.store .other)))
    else
      ({ db with users := db.users ++
          [{ ID := freshID UserEconomy.ID db.users, GuildSnowflake := c.guildID,
             UserSnowflake := c.userID, Points := d.Points }] }, .done none)
  | .found d (some ue) =>
    -- Otherwise update existing
    if c.faults.saveUser then (db, .done (some (.store .other)))
    else
      ({ db with users :=
          saveUser db.users { ue with Points := (ue.Points + d.Points) % uintSize } },
        .done none)
  | .done err => (db, .done err)

/-- A call run alone from its start to its return: five store calls at most. -/
def runAlone (c : Call) (db : DB) : DB × Progress :=
  let s1 := stepCall c db .start
  let s2 := stepCall c s1.1 s1.2
  let s3 := stepCall c s2.1 s2.2
  let s4 := stepCall c s3.1 s3.2
  stepCall c s4.1 s4.2

/-- The store and the calls in flight. -/
structure Running where
  db : DB
  tasks : List (Call × Progress)
deriving DecidableEq, Repr

/-- The call of index `i` makes its next store call. -/
def stepAt (i : Nat) (s : Running) : Running :=
  match s.tasks.get? i with
  | none => s
  | some (c, pr) =>
    { db := (stepCall c s.db pr).1, tasks := s.tasks.set i (c, (stepCall c s.db pr).2) }

/-- The calls in flight take their store calls in the order of `schedule`. -/
def runSchedule (schedule : List Nat) (s : Running) : Running :=
  schedule.foldl (fun s i => stepAt i s) s

/-- The errors returned by calls run one after another (`none` for `nil`). -/
def callResults : DB → List Call → List (Option LogEventError)
  | _, [] => []
  | db, c :: cs =>
    (LogEvent c.faults db c.guildID c.userID c.eventKey).2
      :: callResults (LogEvent c.faults db c.guildID c.userID c.eventKey).1 cs

/-- Two calls awarding `DAILY` to `U1` in `G1` start on the seeded store. -/
def twoClaims : Running :=
  { db := seededDB,
    tasks := [(award "G1" "U1" "DAILY", .start), (award "G1" "U1" "DAILY", .start)] }

/-! ## Lemmas on the store primitives -/

theorem First_eq_none_iff {α : Type} (id : α → Nat) (p : α → Bool) (rows : List α) :
    First id p rows = none ↔ ∀ r ∈ rows, p r = false := by
  induction rows with
  | nil => simp [First]
  | cons r rs ih =>
    by_cases hp : p r = true
    · cases h : First id p rs with
      | none => simp [First, hp, h]
      | some b =>
        by_cases hlt : id b < id r <;> simp [First, hp, h, hlt]
    · simp only [Bool.not_eq_true] at hp
      simp [First, hp, ih]

theorem First_some_spec {α : Type} (id : α → Nat) (p : α → Bool) (rows : List α) (x : α)
    (h : First id p rows = some x) : x ∈ rows ∧ p x = true := by
  induction rows generalizing x with
  | nil => simp [First] at h
  | cons r rs ih =>
    by_cases hp : p r = true
    · cases hrs : First id p rs with
      | none =>
        simp [First, hp, hrs] at h
        subst h
        exact ⟨List.mem_cons_self _ _, hp⟩
      | some b =>
        by_cases hlt : id b < id r
        · simp [First, hp, hrs, hlt] at h
          subst h
          exact ⟨List.mem_cons_of_mem _ (ih b hrs).1, (ih b hrs).2⟩
        · simp [First, hp, hrs, hlt] at h
          subst h
          exact ⟨List.mem_cons_self _ _, hp⟩
    · simp only [Bool.not_eq_true] at hp
      simp only [First, hp] at h
      exact ⟨List.mem_cons_of_mem _ (ih x h).1, (ih x h).2⟩

theorem First_append_of_not {α : Type} (id : α → Nat) (p : α → Bool) (rows : List α) (x : α)
    (hx : p x = false) : First id p (rows ++ [x]) = First id p rows := by
  induction rows with
  | nil => simp [First, hx]
  | cons r rs ih => simp [First, ih]

theorem First_append_of_none {α : Type} (id : α → Nat) (p : α → Bool) (rows : List α) (x : α)
    (hx : p x = true) (h : First id p rows = none) : First id p (rows ++ [x]) = some x := by
  induction rows with
  | nil => simp [First, hx]
  | cons r rs ih =>
    by_cases hp : p r = true
    · cases hrs : First id p rs with
      | none => simp [First, hp, hrs] at h
      | some b => by_cases hlt : id b < id r <;> simp [First, hp, hrs, hlt] at h
    · simp only [Bool.not_eq_true] at hp
      simp only [First, hp] at h
      simp [First, hp, ih h]

theorem First_map {α : Type} (id : α → Nat) (p : α → Bool) (f : α → α) (rows : List α)
    (hf : ∀ r ∈ rows, id (f r) = id r ∧ p (f r) = p r) :
    First id p (rows.map f) = (First id p rows).map f := by
  induction rows with
  | nil => simp [First]
  | cons r rs ih =>
    have ih1 := ih (fun x hx => hf x (List.mem_cons_of_mem _ hx))
    have hr := hf r (List.mem_cons_self _ _)
    by_cases hp : p r = true
    · cases hrs : First id p rs with
      | none => simp [First, hr.2, hp, ih1, hrs]
      | some b =>
        have hb := hf b (List.mem_cons_of_mem _ (First_some_spec id p rs b hrs).1)
        by_cases hlt : id b < id r <;> simp [First, hr.1, hr.2, hp, ih1, hrs, hb.1, hlt]
    · simp only [Bool.not_eq_true] at hp
      simp [First, hr.2, hp, ih1]

theorem lt_freshID {α : Type} (id : α → Nat) (rows : List α) (r : α) (h : r ∈ rows) :
    id r < freshID id rows := by
  induction rows with
  | nil => simp at h
  | cons x xs ih =>
    simp only [freshID, List.map_cons, List.foldr_cons] at ih ⊢
    rcases List.mem_cons.1 h with h | h
    · subst h; omega
    · have := ih h; omega

theorem eq_of_id_eq {α : Type} (id : α → Nat) (rows : List α) (h : (rows.map id).Nodup)
    (a b : α) (ha : a ∈ rows) (hb : b ∈ rows) (hab : id a = id b) : a = b :=
  List.inj_on_of_nodup_map h ha hb hab

/-! ## Lemmas on `LogEvent` -/

theorem queryFirst_ok {α : Type} (fault : Bool) (id : α → Nat) (p : α → Bool)
    (rows : List α) (x : α) :
    queryFirst fault id p rows = .ok x ↔ fault = false ∧ First id p rows = some x := by
  unfold queryFirst
  cases fault <;> cases First id p rows <;> simp

theorem logEvent_of_error (f : Faults) (db : DB) (guildID userID eventKey : String)
    (e : DBError)
    (h : queryFirst f.findDef EconomyEventDefinition.ID (keyIs eventKey) db.defs = .error e) :
    LogEvent f db guildID userID eventKey = (db, some (.unknownEvent eventKey e)) := by
  simp only [LogEvent, h]

theorem logEvent_of_limit (f : Faults) (db : DB) (guildID userID eventKey : String)
    (d : EconomyEventDefinition)
    (h : queryFirst f.findDef EconomyEventDefinition.ID (keyIs eventKey) db.defs = .ok d)
    (hg : limitHit f db d guildID userID) :
    LogEvent f db guildID userID eventKey
      = (db, some (.occurrenceLimitReached eventKey)) := by
  unfold limitHit at hg
  simp only [LogEvent, h]
  rw [if_pos hg]

theorem logEvent_of_createLog_fault (f : Faults) (db : DB)
    (guildID userID eventKey : String) (d : EconomyEventDefinition)
    (h : queryFirst f.findDef EconomyEventDefinition.ID (keyIs eventKey) db.defs = .ok d)
    (hg : ¬ limitHit f db d guildID userID) (hc : f.createLog = true) :
    LogEvent f db guildID userID eventKey = (db, some (.store .other)) := by
  unfold limitHit at hg
  simp only [LogEvent, h]
  rw [if_neg hg, if_pos hc]

theorem logEvent_of_findUser_fault (f : Faults) (db : DB)
    (guildID userID eventKey : String) (d : EconomyEventDefinition)
    (h : queryFirst f.findDef EconomyEventDefinition.ID (keyIs eventKey) db.defs = .ok d)
    (hg : ¬ limitHit f db d guildID userID) (hc : f.createLog = false)
    (hu : f.findUser = true) :
    LogEvent f db guildID userID eventKey
      = (afterInsert db d guildID userID, some (.store .other)) := by
  unfold limitHit at hg
  simp only [LogEvent, h]
  rw [if_neg hg]
  simp [hc, hu, queryFirst, afterInsert, newLogRow]

theorem logEvent_of_new_user (f : Faults) (db : DB)
    (guildID userID eventKey : String) (d : EconomyEventDefinition)
    (h : queryFirst f.findDef EconomyEventDefinition.ID (keyIs eventKey) db.defs = .ok d)
    (hg : ¬ limitHit f db d guildID userID) (hc : f.createLog = false)
    (hu : f.findUser = false)
    (hnone : First UserEconomy.ID (userIs guildID userID) db.users = none) :
    LogEvent f db guildID userID eventKey
      = if f.createUser then (afterInsert db d guildID userID, some (.store .other))
        else ({ afterInsert db d guildID userID with
                users := db.users ++ [{ ID := freshID UserEconomy.ID db.users,
                                        GuildSnowflake := guildID, UserSnowflake := userID,
                                        Points := d.Points }] }, none) := by
  unfold limitHit at hg
  simp only [LogEvent, h]
  rw [if_neg hg]
  simp [hc, hu, hnone, queryFirst, afterInsert, newLogRow]

theorem logEvent_of_old_user (f : Faults) (db : DB)
    (guildID userID eventKey : String) (d : EconomyEventDefinition) (ue : UserEconomy)
    (h : queryFirst f.findDef EconomyEventDefinition.ID (keyIs eventKey) db.defs = .ok d)
    (hg : ¬ limitHit f db d guildID userID) (hc : f.createLog = false)
    (hu : f.findUser = false)
    (hsome : First UserEconomy.ID (userIs guildID userID) db.users = some ue) :
    LogEvent f db guildID userID eventKey
      = if f.saveUser then (afterInsert db d guildID userID, some (.store .other))
        else ({ afterInsert db d guildID userID with
                users := saveUser db.users
                  { ue with Points := (ue.Points + d.Points) % uintSize } }, none) := by
  unfold limitHit at hg
  simp only [LogEvent, h]
  rw [if_neg hg]
  simp [hc, hu, hsome, queryFirst, afterInsert, newLogRow]

theorem logEvent_path (f : Faults) (db : DB) (guildID userID eventKey : String) :
    LogEventPath f db guildID userID eventKey (LogEvent f db guildID userID eventKey) := by
  cases h : queryFirst f.findDef EconomyEventDefinition.ID (keyIs eventKey) db.defs with
  | error e => rw [logEvent_of_error _ _ _ _ _ e h]; exact .unknown e h
  | ok d =>
    by_cases hg : limitHit f db d guildID userID
    · rw [logEvent_of_limit _ _ _ _ _ d h hg]; exact .limit d h hg
    · cases hc : f.createLog with
      | true => rw [logEvent_of_createLog_fault _ _ _ _ _ d h hg hc]; exact .insertFailed d h hg hc
      | false =>
        cases hu : f.findUser with
        | true =>
          rw [logEvent_of_findUser_fault _ _ _ _ _ d h hg hc hu]
          exact .upsertFailed d h hg hc (Or.inl hu)
        | false =>
          cases hfu : First UserEconomy.ID (userIs guildID userID) db.users with
          | none =>
            rw [logEvent_of_new_user _ _ _ _ _ d h hg hc hu hfu]
            cases hcu : f.createUser with
            | true => exact .upsertFailed d h hg hc (Or.inr (Or.inl hcu))
            | false => exact .created d h hg hc hu hfu hcu
          | some ue =>
            rw [logEvent_of_old_user _ _ _ _ _ d ue h hg hc hu hfu]
            cases hsu : f.saveUser with
            | true => exact .upsertFailed d h hg hc (Or.inr (Or.inr hsu))
            | false => exact .updated d ue h hg hc hu hfu hsu

theorem logEvent_defs (f : Faults) (db : DB) (guildID userID eventKey : String) :
    (LogEvent f db guildID userID eventKey).1.defs = db.defs := by
  have hp := logEvent_path f db guildID userID eventKey
  generalize LogEvent f db guildID userID eventKey = r at hp
  cases hp <;> rfl

/-- Either the call leaves the log as it is, or it passed the guard of step 3
for the definition found in step 1 and appended the row of step 4. -/
theorem logEvent_logs (f : Faults) (db : DB) (guildID userID eventKey : String) :
    (LogEvent f db guildID userID eventKey).1.logs = db.logs ∨
    ∃ d, First EconomyEventDefinition.ID (keyIs eventKey) db.defs = some d ∧
      ¬ limitHit f db d guildID userID ∧
      (LogEvent f db guildID userID eventKey).1.logs
        = db.logs ++ [newLogRow db d guildID userID] := by
  have hp := logEvent_path f db guildID userID eventKey
  generalize LogEvent f db guildID userID eventKey = r at hp
  cases hp with
  | unknown e h => left; rfl
  | limit d h hg => left; rfl
  | insertFailed d h hg hc => left; rfl
  | upsertFailed d h hg hc hu => right; exact ⟨d, ((queryFirst_ok _ _ _ _ _).1 h).2, hg, rfl⟩
  | created d h hg hc hu hnone hcu =>
    right; exact ⟨d, ((queryFirst_ok _ _ _ _ _).1 h).2, hg, rfl⟩
  | updated d ue h hg hc hu hsome hsu =>
    right; exact ⟨d, ((queryFirst_ok _ _ _ _ _).1 h).2, hg, rfl⟩

theorem countLogs_append (db : DB) (row : UserEventLog) (defID : Nat)
    (guildID userID : String) :
    countLogs { db with logs := db.logs ++ [row] } defID guildID userID
      = countLogs db defID guildID userID
        + (if logIs defID guildID userID row then 1 else 0) := by
  unfold countLogs
  by_cases h : logIs defID guildID userID row = true
  · simp [List.filter_append, h]
  · simp only [Bool.not_eq_true] at h
    simp [List.filter_append, h]

theorem logEvent_limitInv (f : Faults) (db : DB) (guildID userID eventKey : String)
    (hpk : (db.defs.map EconomyEventDefinition.ID).Nodup) (hf : f.countLogs = false)
    (h : LimitInv db) : LimitInv (LogEvent f db guildID userID eventKey).1 := by
  intro d' hd' hmax g u
  rw [logEvent_defs] at hd'
  have hcount : ∀ s : DB, countLogs s d'.ID g u
      = (s.logs.filter (logIs d'.ID g u)).length := fun _ => rfl
  rcases logEvent_logs f db guildID userID eventKey with hl | ⟨d, hd, hguard, hl⟩
  · rw [hcount, hl, ← hcount]
    exact h d' hd' hmax g u
  · rw [hcount, hl]
    have hprev := h d' hd' hmax g u
    have happ := countLogs_append db (newLogRow db d guildID userID) d'.ID g u
    rw [hcount] at happ
    simp only at happ
    rw [happ]
    by_cases hrow : logIs d'.ID g u (newLogRow db d guildID userID) = true
    · simp only [hrow, if_true]
      simp only [logIs, newLogRow, Bool.and_eq_true, decide_eq_true_eq] at hrow
      obtain ⟨⟨hid, hg⟩, hu⟩ := hrow
      have hdd : d = d' :=
        eq_of_id_eq EconomyEventDefinition.ID db.defs hpk d d'
          (First_some_spec _ _ _ _ hd).1 hd' hid
      subst hdd
      subst hg
      subst hu
      simp only [limitHit, hf, Bool.false_eq_true, if_false, not_and, not_le] at hguard
      exact hguard hmax
    · simp only [Bool.not_eq_true] at hrow
      simpa [hrow] using hprev

theorem runCalls_defs (db : DB) (calls : List Call) : (runCalls db calls).defs = db.defs := by
  induction calls generalizing db with
  | nil => rfl
  | cons c cs ih =>
    show (runCalls (LogEvent c.faults db c.guildID c.userID c.eventKey).1 cs).defs = db.defs
    rw [ih, logEvent_defs]

theorem limitInv_of_empty_log (db : DB) (h : db.logs = []) : LimitInv db := by
  intro d _ _ g u
  simp [countLogs, h]

/-! ## C1: occurrence limit -/

/-- C1. Occurrence-limit invariant: from a store whose event log is empty, or in
which the bound already holds, every finite sequence of `LogEvent` calls run
one after another with arbitrary arguments leads to a store in which, for every
definition with `MaxOccurrence > 0` and every guild and user, the number of log
rows of that definition, guild and user is at most `MaxOccurrence`.  The
definitions carry distinct primary keys, and the `Count` query of step 2
answers in every call (any other store call may fail). -/
theorem logEvent_occurrence_limit (db : DB) (calls : List Call)
    (hpk : (db.defs.map EconomyEventDefinition.ID).Nodup)
    (hcount : ∀ c ∈ calls, c.faults.countLogs = false)
    (h0 : db.logs = [] ∨ LimitInv db) :
    LimitInv (runCalls db calls) := by
  have h1 : LimitInv db := h0.elim (limitInv_of_empty_log db) id
  clear h0
  induction calls generalizing db with
  | nil => exact h1
  | cons c cs ih =>
    show LimitInv (runCalls (LogEvent c.faults db c.guildID c.userID c.eventKey).1 cs)
    apply ih
    · rw [logEvent_defs]; exact hpk
    · exact fun x hx => hcount x (List.mem_cons_of_mem _ hx)
    · exact logEvent_limitInv _ _ _ _ _ hpk (hcount c (List.mem_cons_self _ _)) h1


theorem logEvent_occurrence_limit_witness :
    (seededDB.defs.map EconomyEventDefinition.ID).Nodup ∧ seededDB.logs = [] ∧
      countLogs (runCalls seededDB
        [award "G1" "U1" "DAILY", award "G1" "U1" "DAILY", award "G1" "U2" "DAILY"])
        1 "G1" "U1" = 1 ∧
      LimitInv (runCalls seededDB
        [award "G1" "U1" "DAILY", award "G1" "U1" "DAILY", award "G1" "U2" "DAILY"]) :=
  ⟨by decide, rfl, by decide,
    logEvent_occurrence_limit seededDB
      [award "G1" "U1" "DAILY", award "G1" "U1" "DAILY", award "G1" "U2" "DAILY"]
      (by decide) (by decide) (Or.inl rfl)⟩

/-- When the `Count` query of step 2 fails, its error is dropped, the guard of
step 3 sees a count of zero and the award goes through past the limit. -/
theorem logEvent_count_fault_passes_guard :
    (LogEvent { noFaults with countLogs := true } claimedDB "G1" "U1" "DAILY").2 = none ∧
      countLogs (LogEvent { noFaults with countLogs := true } claimedDB "G1" "U1" "DAILY").1
        1 "G1" "U1" = 2 := by
  decide

/-! ## Lemmas on totals -/

theorem userTotal_eq (db : DB) (guildID userID : String) :
    userTotal db guildID userID
      = match First UserEconomy.ID (userIs guildID userID) db.users with
        | some ue => ue.Points
        | none => 0 := rfl

/-- What `GetUserPoints` returns on a store that answers: the points written in
the row when they fit the column, a scan error when they do not. -/
theorem getUserPoints_eq (db : DB) (guildID userID : String) :
    GetUserPoints false db guildID userID
      = if userTotal db guildID userID < columnLimit then
          (userTotal db guildID userID, none)
        else (0, some .other) := by
  unfold GetUserPoints queryFirst userTotal
  cases hf : First UserEconomy.ID (userIs guildID userID) db.users with
  | none => simp [Except.bind, columnLimit]
  | some ue =>
    by_cases hlt : ue.Points < columnLimit
    · simp [Except.bind, scanUser, hlt]
    · simp [Except.bind, scanUser, hlt]

theorem userIs_iff (guildID userID : String) (ue : UserEconomy) :
    userIs guildID userID ue = true
      ↔ ue.GuildSnowflake = guildID ∧ ue.UserSnowflake = userID := by
  simp [userIs]

/-- What `Save` does to the answers of `First`: the row found for the saved
user carries the new points, every other answer is as before. -/
theorem first_saveUser (users : List UserEconomy) (hv : ValidKeys UserEconomy.ID users)
    (ue : UserEconomy) (hue : ue ∈ users) (pts : Nat) (g u : String) :
    First UserEconomy.ID (userIs g u) (saveUser users { ue with Points := pts })
      = (First UserEconomy.ID (userIs g u) users).map
          (fun r => if r.ID = ue.ID then { ue with Points := pts } else r) := by
  have hne : ue.ID ≠ 0 := hv.2 ue hue
  unfold saveUser
  simp only [hne, if_false]
  apply First_map
  intro r hr
  by_cases hid : r.ID = ue.ID
  · have : r = ue := eq_of_id_eq UserEconomy.ID users hv.1 r ue hr hue hid
    subst this
    simp [userIs]
  · simp [hid]

theorem validKeys_saveUser (users : List UserEconomy) (hv : ValidKeys UserEconomy.ID users)
    (ue : UserEconomy) (hue : ue ∈ users) (pts : Nat) :
    ValidKeys UserEconomy.ID (saveUser users { ue with Points := pts }) := by
  have hne : ue.ID ≠ 0 := hv.2 ue hue
  unfold saveUser
  simp only [hne, if_false]
  have hmap : (users.map (fun r => if r.ID = ue.ID then { ue with Points := pts } else r)).map
      UserEconomy.ID = users.map UserEconomy.ID := by
    rw [List.map_map]
    apply List.map_congr_left
    intro r _
    by_cases hid : r.ID = ue.ID <;> simp [hid]
  refine ⟨by rw [hmap]; exact hv.1, ?_⟩
  intro r hr
  rcases List.mem_map.1 hr with ⟨x, hx, rfl⟩
  by_cases hid : x.ID = ue.ID
  · simpa [hid] using hne
  · simpa [hid] using hv.2 x hx

theorem validKeys_append_fresh {α : Type} (id : α → Nat) (rows : List α)
    (hv : ValidKeys id rows) (x : α) (hx : id x = freshID id rows) :
    ValidKeys id (rows ++ [x]) := by
  constructor
  · rw [List.map_append, List.map_singleton]
    apply List.Nodup.append hv.1 (List.nodup_singleton _)
    intro a ha hb
    rcases List.mem_map.1 ha with ⟨r, hr, rfl⟩
    have := lt_freshID id rows r hr
    simp only [List.mem_singleton] at hb
    omega
  · intro r hr
    rcases List.mem_append.1 hr with h | h
    · exact hv.2 r h
    · simp only [List.mem_singleton] at h
      subst h
      rw [hx]
      unfold freshID
      omega

theorem first_by_id (defs : List EconomyEventDefinition)
    (hpk : (defs.map EconomyEventDefinition.ID).Nodup) (d : EconomyEventDefinition)
    (hd : d ∈ defs) :
    First EconomyEventDefinition.ID (fun x => decide (x.ID = d.ID)) defs = some d := by
  cases h : First EconomyEventDefinition.ID (fun x => decide (x.ID = d.ID)) defs with
  | none =>
    have := (First_eq_none_iff _ _ _).1 h d hd
    simp at this
  | some x =>
    have hx := First_some_spec _ _ _ _ h
    simp only [decide_eq_true_eq] at hx
    rw [eq_of_id_eq EconomyEventDefinition.ID defs hpk x d hx.1 hd hx.2]

theorem ledgerSum_afterInsert (db : DB) (hpk : (db.defs.map EconomyEventDefinition.ID).Nodup)
    (d : EconomyEventDefinition) (hd : d ∈ db.defs) (guildID userID : String)
    (users : List UserEconomy) (g u : String) :
    ledgerSum { afterInsert db d guildID userID with users := users } g u
      = ledgerSum db g u + (if g = guildID ∧ u = userID then d.Points else 0) := by
  have hpts : pointsOfLog db.defs (newLogRow db d guildID userID) = d.Points := by
    unfold pointsOfLog
    simp only [newLogRow]
    rw [first_by_id db.defs hpk d hd]
  unfold ledgerSum afterInsert
  simp only [List.filter_append, List.map_append, List.sum_append]
  congr 1
  by_cases hgu : g = guildID ∧ u = userID
  · obtain ⟨rfl, rfl⟩ := hgu
    simp only [newLogRow] at hpts
    simp [List.filter, newLogRow, hpts]
  · simp only [hgu, if_false]
    have : (decide ((newLogRow db d guildID userID).GuildSnowflake = g)
        && decide ((newLogRow db d guildID userID).UserSnowflake = u)) = false := by
      simp only [newLogRow, Bool.and_eq_false_imp, decide_eq_true_eq, decide_eq_false_iff_not]
      intro h1 h2
      exact hgu ⟨h1.symm, h2.symm⟩
    simp [List.filter, this]

theorem userTotal_created (db : DB) (logs : List UserEventLog) (guildID userID : String)
    (pts : Nat)
    (hnone : First UserEconomy.ID (userIs guildID userID) db.users = none) (g u : String) :
    userTotal { defs := db.defs, logs := logs,
                users := db.users ++ [{ ID := freshID UserEconomy.ID db.users,
                                        GuildSnowflake := guildID, UserSnowflake := userID,
                                        Points := pts }] } g u
      = if g = guildID ∧ u = userID then pts else userTotal db g u := by
  rw [userTotal_eq, userTotal_eq]
  by_cases hgu : g = guildID ∧ u = userID
  · obtain ⟨rfl, rfl⟩ := hgu
    simp only [and_self, if_true]
    rw [First_append_of_none _ _ _ _ (by simp [userIs]) hnone]
  · simp only [hgu, if_false]
    rw [First_append_of_not]
    simp only [userIs, Bool.and_eq_false_imp, decide_eq_true_eq, decide_eq_false_iff_not]
    intro h1 h2
    exact hgu ⟨h1.symm, h2.symm⟩

theorem userTotal_updated (db : DB) (logs : List UserEventLog) (guildID userID : String)
    (hv : ValidKeys UserEconomy.ID db.users) (ue : UserEconomy) (pts : Nat)
    (hsome : First UserEconomy.ID (userIs guildID userID) db.users = some ue) (g u : String) :
    userTotal { defs := db.defs, logs := logs,
                users := saveUser db.users { ue with Points := pts } } g u
      = if g = guildID ∧ u = userID then pts else userTotal db g u := by
  have hue := First_some_spec _ _ _ _ hsome
  rw [userTotal_eq, userTotal_eq]
  simp only
  rw [first_saveUser db.users hv ue hue.1 pts g u]
  by_cases hgu : g = guildID ∧ u = userID
  · obtain ⟨rfl, rfl⟩ := hgu
    simp [hsome]
  · simp only [hgu, if_false]
    cases hf : First UserEconomy.ID (userIs g u) db.users with
    | none => rfl
    | some r =>
      have hr := First_some_spec _ _ _ _ hf
      have hne : r.ID ≠ ue.ID := by
        intro hid
        have : r = ue := eq_of_id_eq UserEconomy.ID db.users hv.1 r ue hr.1 hue.1 hid
        subst this
        have h1 := (userIs_iff _ _ _).1 hr.2
        have h2 := (userIs_iff _ _ _).1 hue.2
        exact hgu ⟨h1.1.symm.trans h2.1, h1.2.symm.trans h2.2⟩
      simp [hne]

theorem logEvent_aggInv (f : Faults) (db : DB) (guildID userID eventKey : String)
    (hpk : (db.defs.map EconomyEventDefinition.ID).Nodup)
    (hpts : ∀ d ∈ db.defs, d.Points < uintSize) (hf : f.upsertOK)
    (h : AggInv db) : AggInv (LogEvent f db guildID userID eventKey).1 := by
  have hp := logEvent_path f db guildID userID eventKey
  generalize LogEvent f db guildID userID eventKey = r at hp
  obtain ⟨hv, hagg⟩ := h
  cases hp with
  | unknown e h => exact ⟨hv, hagg⟩
  | limit d h hg => exact ⟨hv, hagg⟩
  | insertFailed d h hg hc => exact ⟨hv, hagg⟩
  | upsertFailed d h hg hc hu =>
    exfalso
    obtain ⟨h1, h2, h3⟩ := hf
    rcases hu with hu | hu | hu
    · rw [h1] at hu; cases hu
    · rw [h2] at hu; cases hu
    · rw [h3] at hu; cases hu
  | created d h hg hc hu hnone hcu =>
    have hd := (First_some_spec _ _ _ _ ((queryFirst_ok _ _ _ _ _).1 h).2).1
    refine ⟨validKeys_append_fresh _ _ hv _ rfl, ?_⟩
    intro g u
    have hsum := ledgerSum_afterInsert db hpk d hd guildID userID
      (db.users ++ [{ ID := freshID UserEconomy.ID db.users, GuildSnowflake := guildID,
                      UserSnowflake := userID, Points := d.Points }]) g u
    have htot := userTotal_created db (afterInsert db d guildID userID).logs guildID userID
      d.Points hnone g u
    simp only [afterInsert] at hsum htot ⊢
    rw [hsum, htot]
    by_cases hgu : g = guildID ∧ u = userID
    · simp only [hgu, and_self, if_true]
      have h0 := hagg guildID userID
      rw [userTotal_eq, hnone] at h0
      simp only at h0
      rw [Nat.add_mod, ← h0, Nat.zero_add, Nat.mod_mod, Nat.mod_eq_of_lt (hpts d hd)]
    · simp only [hgu, if_false, Nat.add_zero]
      exact hagg g u
  | updated d ue h hg hc hu hsome hsu =>
    have hd := (First_some_spec _ _ _ _ ((queryFirst_ok _ _ _ _ _).1 h).2).1
    have hue := First_some_spec _ _ _ _ hsome
    refine ⟨validKeys_saveUser _ hv ue hue.1 _, ?_⟩
    intro g u
    have hsum := ledgerSum_afterInsert db hpk d hd guildID userID
      (saveUser db.users { ue with Points := (ue.Points + d.Points) % uintSize }) g u
    have htot := userTotal_updated db (afterInsert db d guildID userID).logs guildID userID
      hv ue ((ue.Points + d.Points) % uintSize) hsome g u
    simp only [afterInsert] at hsum htot ⊢
    rw [hsum, htot]
    by_cases hgu : g = guildID ∧ u = userID
    · simp only [hgu, and_self, if_true]
      have h0 := hagg guildID userID
      rw [userTotal_eq, hsome] at h0
      simp only at h0
      rw [h0]
      simp [Nat.add_mod]
    · simp only [hgu, if_false, Nat.add_zero]
      exact hagg g u

theorem aggInv_of_empty (db : DB) (hl : db.logs = []) (hu : db.users = []) : AggInv db := by
  refine ⟨⟨by simp [hu], by simp [hu]⟩, ?_⟩
  intro g u
  rw [userTotal_eq]
  simp [hu, hl, First, ledgerSum]

/-! ## C2: aggregate -/

theorem columnLimit_lt_uintSize : columnLimit < uintSize := by
  unfold columnLimit uintSize
  omega

theorem runCalls_aggInv (db : DB) (calls : List Call)
    (hpk : (db.defs.map EconomyEventDefinition.ID).Nodup)
    (hpts : ∀ d ∈ db.defs, d.Points < uintSize)
    (hf : ∀ c ∈ calls, c.faults.upsertOK) (h : AggInv db) : AggInv (runCalls db calls) := by
  induction calls generalizing db with
  | nil => exact h
  | cons c cs ih =>
    show AggInv (runCalls (LogEvent c.faults db c.guildID c.userID c.eventKey).1 cs)
    apply ih
    · rw [logEvent_defs]; exact hpk
    · rw [logEvent_defs]; exact hpts
    · exact fun x hx => hf x (List.mem_cons_of_mem _ hx)
    · exact logEvent_aggInv _ _ _ _ _ hpk hpts (hf c (List.mem_cons_self _ _)) h

/-- C2 (amended). In every store reached from the empty ledger (no log row, no
user row) by a sequence of `LogEvent` calls on a store that answers the calls
of step 5, for every guild and user whose ledger sum (the sum of the points of
the definitions referred to by the log rows of that guild and user, a row whose
definition is missing counting `0`) is below `2 ^ 63`, the largest total the
signed 64-bit points column holds, `GetUserPoints` returns that sum and no
error.  The definitions carry distinct primary keys and points that fit
`uint`. -/
theorem getUserPoints_eq_ledgerSum_of_fits (db : DB) (calls : List Call)
    (hpk : (db.defs.map EconomyEventDefinition.ID).Nodup)
    (hpts : ∀ d ∈ db.defs, d.Points < uintSize)
    (hf : ∀ c ∈ calls, c.faults.upsertOK)
    (hl : db.logs = []) (hu : db.users = []) (g u : String)
    (hfit : ledgerSum (runCalls db calls) g u < columnLimit) :
    GetUserPoints false (runCalls db calls) g u
      = (ledgerSum (runCalls db calls) g u, none) := by
  have hinv := runCalls_aggInv db calls hpk hpts hf (aggInv_of_empty db hl hu)
  have h2 := hinv.2 g u
  rw [Nat.mod_eq_of_lt (Nat.lt_trans hfit columnLimit_lt_uintSize)] at h2
  rw [getUserPoints_eq, h2, if_pos hfit]

/-- C2 (as stated) fails where the sum leaves the points column: with an
unlimited event worth `2 ^ 62` points (a value the column holds), the first
award from the empty ledger reads back as `2 ^ 62`; after the second award the
ledger sum is `2 ^ 63` and `GetUserPoints` returns `0` with a scan error. -/
theorem getUserPoints_ne_ledgerSum_on_overflow :
    jackpotDB.logs = [] ∧ jackpotDB.users = [] ∧
      (∀ d ∈ jackpotDB.defs, d.Points < columnLimit) ∧
      GetUserPoints false (runCalls jackpotDB [award "G1" "U1" "JACKPOT"]) "G1" "U1"
        = (2 ^ 62, none) ∧
      ledgerSum (runCalls jackpotDB [award "G1" "U1" "JACKPOT", award "G1" "U1" "JACKPOT"])
        "G1" "U1" = 2 ^ 63 ∧
      GetUserPoints false
        (runCalls jackpotDB [award "G1" "U1" "JACKPOT", award "G1" "U1" "JACKPOT"])
        "G1" "U1" = (0, some .other) := by
  decide

theorem getUserPoints_eq_ledgerSum_of_fits_witness :
    ledgerSum (runCalls seededDB [award "G1" "U1" "DAILY", award "G1" "U1" "JOIN_SERVER"])
        "G1" "U1" = 298 ∧
      GetUserPoints false
        (runCalls seededDB [award "G1" "U1" "DAILY", award "G1" "U1" "JOIN_SERVER"])
        "G1" "U1" = (298, none) :=
  ⟨by decide,
    (getUserPoints_eq_ledgerSum_of_fits seededDB
        [award "G1" "U1" "DAILY", award "G1" "U1" "JOIN_SERVER"]
        (by decide) (by decide) (by decide) rfl rfl "G1" "U1" (by decide)).trans
      (by decide)⟩

/-! ## C3: successful award -/

/-- The previous total read without error is the points written in the row,
and they fit the column. -/
theorem userTotal_of_read (db : DB) (guildID userID : String)
    (hread : (GetUserPoints false db guildID userID).2 = none) :
    userTotal db guildID userID < columnLimit ∧
      (GetUserPoints false db guildID userID).1 = userTotal db guildID userID := by
  rw [getUserPoints_eq] at hread ⊢
  by_cases hlt : userTotal db guildID userID < columnLimit
  · simp [hlt]
  · simp [hlt] at hread

/-- C3 (amended). When `eventKey` resolves to the definition `d`, either
`d.MaxOccurrence = 0` or the user has fewer than `d.MaxOccurrence` log rows of
`d` in the guild, and the previous total of the user reads without error,
`LogEvent` on a store that answers returns no error, leaves the catalog alone
and appends exactly one log row, for `(d, guild, user)`; afterwards
`GetUserPoints(guild, user)` is the previous total plus `d.Points` (`d.Points`
itself when the user had no `UserEconomy` row) whenever that sum is below
`2 ^ 63`, the largest total the signed 64-bit points column holds.  User rows
carry valid primary keys. -/
theorem logEvent_success (db : DB) (guildID userID eventKey : String)
    (d : EconomyEventDefinition)
    (hv : ValidKeys UserEconomy.ID db.users)
    (hd : First EconomyEventDefinition.ID (keyIs eventKey) db.defs = some d)
    (hlim : d.MaxOccurrence = 0 ∨ countLogs db d.ID guildID userID < d.MaxOccurrence)
    (hread : (GetUserPoints false db guildID userID).2 = none) :
    (LogEvent noFaults db guildID userID eventKey).2 = none ∧
      (LogEvent noFaults db guildID userID eventKey).1.defs = db.defs ∧
      (LogEvent noFaults db guildID userID eventKey).1.logs
        = db.logs ++ [{ ID := freshID UserEventLog.ID db.logs,
                        EconomyEventDefinitionID := d.ID,
                        GuildSnowflake := guildID, UserSnowflake := userID }] ∧
      ((GetUserPoints false db guildID userID).1 + d.Points < columnLimit →
        GetUserPoints false (LogEvent noFaults db guildID userID eventKey).1 guildID userID
          = ((GetUserPoints false db guildID userID).1 + d.Points, none)) ∧
      (First UserEconomy.ID (userIs guildID userID) db.users = none →
        d.Points < columnLimit →
        GetUserPoints false (LogEvent noFaults db guildID userID eventKey).1 guildID userID
          = (d.Points, none)) := by
  have hq : queryFirst noFaults.findDef EconomyEventDefinition.ID (keyIs eventKey) db.defs
      = .ok d := (queryFirst_ok _ _ _ _ _).2 ⟨rfl, hd⟩
  have hg : ¬ limitHit noFaults db d guildID userID := by
    simp only [limitHit, noFaults, Bool.false_eq_true, if_false, not_and, not_le]
    intro hpos
    rcases hlim with h | h
    · omega
    · exact h
  obtain ⟨_, hprev⟩ := userTotal_of_read db guildID userID hread
  cases hfu : First UserEconomy.ID (userIs guildID userID) db.users with
  | none =>
    have hr := logEvent_of_new_user noFaults db guildID userID eventKey d hq hg rfl rfl hfu
    simp only [noFaults, Bool.false_eq_true, if_false] at hr
    have htot := userTotal_created db (afterInsert db d guildID userID).logs guildID userID
      d.Points hfu guildID userID
    simp only [and_self, if_true] at htot
    have h0 : userTotal db guildID userID = 0 := by rw [userTotal_eq, hfu]
    have hget : d.Points < columnLimit →
        GetUserPoints false (LogEvent noFaults db guildID userID eventKey).1
          guildID userID = (d.Points, none) := by
      intro hfit
      rw [show LogEvent noFaults db guildID userID eventKey = _ from hr, getUserPoints_eq]
      simp only [afterInsert] at htot ⊢
      rw [htot, if_pos hfit]
    refine ⟨?_, ?_, ?_, fun hfit => ?_, fun _ hfit => hget hfit⟩
    · rw [show LogEvent noFaults db guildID userID eventKey = _ from hr]
    · rw [show LogEvent noFaults db guildID userID eventKey = _ from hr]; rfl
    · rw [show LogEvent noFaults db guildID userID eventKey = _ from hr]; rfl
    · rw [hprev, h0, Nat.zero_add] at hfit ⊢
      exact hget hfit
  | some ue =>
    have hr := logEvent_of_old_user noFaults db guildID userID eventKey d ue hq hg rfl rfl hfu
    simp only [noFaults, Bool.false_eq_true, if_false] at hr
    have htot := userTotal_updated db (afterInsert db d guildID userID).logs guildID userID
      hv ue ((ue.Points + d.Points) % uintSize) hfu guildID userID
    simp only [and_self, if_true] at htot
    have h0 : userTotal db guildID userID = ue.Points := by rw [userTotal_eq, hfu]
    refine ⟨?_, ?_, ?_, fun hfit => ?_, fun h => by cases h⟩
    · rw [show LogEvent noFaults db guildID userID eventKey = _ from hr]
    · rw [show LogEvent noFaults db guildID userID eventKey = _ from hr]; rfl
    · rw [show LogEvent noFaults db guildID userID eventKey = _ from hr]; rfl
    · rw [hprev, h0] at hfit ⊢
      rw [show LogEvent noFaults db guildID userID eventKey = _ from hr, getUserPoints_eq]
      simp only [afterInsert] at htot ⊢
      rw [htot, Nat.mod_eq_of_lt (Nat.lt_trans hfit columnLimit_lt_uintSize), if_pos hfit]

/-- C3 (as stated) fails where the new total leaves the points column: a user
holding `2 ^ 63 - 1` points, the largest total the column holds, is awarded
`DAILY` (85 points); `LogEvent` returns no error, and `GetUserPoints` then
returns `0` with a scan error, not the previous total plus `85`. -/
theorem logEvent_success_unreadable_total :
    First EconomyEventDefinition.ID (keyIs "DAILY") richDB.defs
        = some { ID := 1, Key := "DAILY", Name := "Daily Reward", Points := 85,
                 MaxOccurrence := 1 } ∧
      countLogs richDB 1 "G1" "U1" < 1 ∧
      GetUserPoints false richDB "G1" "U1" = (2 ^ 63 - 1, none) ∧
      (LogEvent noFaults richDB "G1" "U1" "DAILY").2 = none ∧
      GetUserPoints false (LogEvent noFaults richDB "G1" "U1" "DAILY").1 "G1" "U1"
        = (0, some .other) := by
  decide

theorem logEvent_success_witness :
    (LogEvent noFaults seededDB "G1" "U2" "BOOST_SERVER").2 = none ∧
      (LogEvent noFaults boostedDB "G1" "U2" "SUBMIT_DEPOSIT").2 = none ∧
      GetUserPoints false (LogEvent noFaults boostedDB "G1" "U2" "SUBMIT_DEPOSIT").1
        "G1" "U2" = (37570, none) :=
  ⟨by decide,
    (logEvent_success boostedDB "G1" "U2" "SUBMIT_DEPOSIT"
      { ID := 8, Key := "SUBMIT_DEPOSIT", Name := "Submit enrollment deposit",
        Points := 34000, MaxOccurrence := 1 }
      (by decide) (by decide) (by decide) (by decide)).1,
    ((logEvent_success boostedDB "G1" "U2" "SUBMIT_DEPOSIT"
      { ID := 8, Key := "SUBMIT_DEPOSIT", Name := "Submit enrollment deposit",
        Points := 34000, MaxOccurrence := 1 }
      (by decide) (by decide) (by decide) (by decide)).2.2.2.1 (by decide)).trans
      (by decide)⟩

/-! ## C4: limit reached -/

/-- C4. When `eventKey` resolves to a definition `d` with `d.MaxOccurrence > 0`
and the user already has `d.MaxOccurrence` or more log rows of `d` in the guild,
`LogEvent` returns the occurrence-limit error and the store (event log, every
`UserEconomy` row, catalog) is what it was before the call.  The lookup of step
1 and the count of step 2 are answered by the store. -/
theorem logEvent_limit_reached (f : Faults) (db : DB) (guildID userID eventKey : String)
    (d : EconomyEventDefinition)
    (hfind : f.findDef = false) (hcnt : f.countLogs = false)
    (hd : First EconomyEventDefinition.ID (keyIs eventKey) db.defs = some d)
    (hmax : 0 < d.MaxOccurrence)
    (hcount : d.MaxOccurrence ≤ countLogs db d.ID guildID userID) :
    LogEvent f db guildID userID eventKey
      = (db, some (.occurrenceLimitReached eventKey)) := by
  apply logEvent_of_limit f db guildID userID eventKey d
  · exact (queryFirst_ok _ _ _ _ _).2 ⟨hfind, hd⟩
  · simp only [limitHit, hcnt, Bool.false_eq_true, if_false]
    exact ⟨hmax, hcount⟩

theorem logEvent_limit_reached_witness :
    (LogEvent noFaults seededDB "G1" "U1" "DAILY").2 = none ∧
      GetUserPoints false claimedDB "G1" "U1" = (85, none) ∧
      LogEvent noFaults claimedDB "G1" "U1" "DAILY"
        = (claimedDB, some (.occurrenceLimitReached "DAILY")) ∧
      GetUserPoints false (LogEvent noFaults claimedDB "G1" "U1" "DAILY").1 "G1" "U1"
        = (85, none) :=
  ⟨by decide, by decide,
    logEvent_limit_reached noFaults claimedDB "G1" "U1" "DAILY"
      { ID := 1, Key := "DAILY", Name := "Daily Reward", Points := 85, MaxOccurrence := 1 }
      rfl rfl (by decide) (by decide) (by decide),
    by decide⟩

/-! ## C5: unknown key -/

/-- C5. When no definition of the catalog has the key `eventKey`, `LogEvent`
returns the unknown-event error and the store (event log, every `UserEconomy`
row, catalog) is what it was before the call, whatever store failures occur. -/
theorem logEvent_unknown_key (f : Faults) (db : DB) (guildID userID eventKey : String)
    (h : ∀ d ∈ db.defs, d.Key ≠ eventKey) :
    ∃ cause, LogEvent f db guildID userID eventKey
      = (db, some (.unknownEvent eventKey cause)) := by
  cases hq : queryFirst f.findDef EconomyEventDefinition.ID (keyIs eventKey) db.defs with
  | error e => exact ⟨e, logEvent_of_error f db guildID userID eventKey e hq⟩
  | ok d =>
    exfalso
    have hd := First_some_spec _ _ _ _ ((queryFirst_ok _ _ _ _ _).1 hq).2
    simp only [keyIs, decide_eq_true_eq] at hd
    exact h d hd.1 hd.2

theorem logEvent_unknown_key_witness :
    (∀ d ∈ claimedDB.defs, d.Key ≠ "WEEKLY") ∧
      ∃ cause, LogEvent noFaults claimedDB "G1" "U1" "WEEKLY"
        = (claimedDB, some (.unknownEvent "WEEKLY" cause)) :=
  ⟨by decide, logEvent_unknown_key noFaults claimedDB "G1" "U1" "WEEKLY" (by decide)⟩

/-! ## C6: atomicity -/

/-- C6 (as stated) fails: when the store fails while step 5 reads the
`UserEconomy` row, `LogEvent` returns an error, yet the log row of step 4 stays
in the event log while no `UserEconomy` row carries the points. -/
theorem logEvent_error_keeps_log_row :
    (LogEvent findUserFails seededDB "G1" "U1" "DAILY").2 = some (.store .other) ∧
      (LogEvent findUserFails seededDB "G1" "U1" "DAILY").1.logs
        = [{ ID := 1, EconomyEventDefinitionID := 1, GuildSnowflake := "G1",
             UserSnowflake := "U1" }] ∧
      seededDB.logs = [] ∧
      (LogEvent findUserFails seededDB "G1" "U1" "DAILY").1.users = seededDB.users ∧
      (LogEvent findUserFails seededDB "G1" "U1" "DAILY").1 ≠ seededDB := by
  decide

/-- C6 (amended). `LogEvent` is atomic up to step 4 only; there is no rollback.
(1) When it returns no error, the log row of step 4 was appended and the
`UserEconomy` row of the user was created or saved with the points added.
(2) When it returns an error, no `UserEconomy` row and no definition has
changed, and either the whole store is as before, or the error is a store
error raised in step 5 (reading, creating or saving the `UserEconomy` row) and
the event log is the former log with the row of step 4 appended.
(3) When it returns an error and the store answers every call of step 5, the
whole store is as before. -/
theorem logEvent_atomic_up_to_insert (f : Faults) (db : DB)
    (guildID userID eventKey : String) :
    ((LogEvent f db guildID userID eventKey).2 = none →
      ∃ d, First EconomyEventDefinition.ID (keyIs eventKey) db.defs = some d ∧
        (LogEvent f db guildID userID eventKey).1.logs
          = db.logs ++ [newLogRow db d guildID userID] ∧
        ((First UserEconomy.ID (userIs guildID userID) db.users = none ∧
          (LogEvent f db guildID userID eventKey).1.users
            = db.users ++ [{ ID := freshID UserEconomy.ID db.users,
                             GuildSnowflake := guildID, UserSnowflake := userID,
                             Points := d.Points }]) ∨
         ∃ ue, First UserEconomy.ID (userIs guildID userID) db.users = some ue ∧
          (LogEvent f db guildID userID eventKey).1.users
            = saveUser db.users { ue with Points := (ue.Points + d.Points) % uintSize })) ∧
    (∀ e, (LogEvent f db guildID userID eventKey).2 = some e →
      (LogEvent f db guildID userID eventKey).1.users = db.users ∧
      (LogEvent f db guildID userID eventKey).1.defs = db.defs ∧
      ((LogEvent f db guildID userID eventKey).1 = db ∨
        (e = .store .other ∧
          (f.findUser = true ∨ f.createUser = true ∨ f.saveUser = true) ∧
          ∃ d, First EconomyEventDefinition.ID (keyIs eventKey) db.defs = some d ∧
            (LogEvent f db guildID userID eventKey).1.logs
              = db.logs ++ [newLogRow db d guildID userID]))) ∧
    (∀ e, (LogEvent f db guildID userID eventKey).2 = some e → f.upsertOK →
      (LogEvent f db guildID userID eventKey).1 = db) := by
  have hp := logEvent_path f db guildID userID eventKey
  generalize LogEvent f db guildID userID eventKey = r at hp
  cases hp with
  | unknown e h =>
    exact ⟨nofun, fun _ _ => ⟨rfl, rfl, Or.inl rfl⟩, fun _ _ _ => rfl⟩
  | limit d h hg =>
    exact ⟨nofun, fun _ _ => ⟨rfl, rfl, Or.inl rfl⟩, fun _ _ _ => rfl⟩
  | insertFailed d h hg hc =>
    exact ⟨nofun, fun _ _ => ⟨rfl, rfl, Or.inl rfl⟩, fun _ _ _ => rfl⟩
  | upsertFailed d h hg hc hu =>
    refine ⟨nofun, fun e he => ⟨rfl, rfl, Or.inr ⟨?_, hu, d, ?_, rfl⟩⟩, ?_⟩
    · simp only [Option.some.injEq] at he
      exact he.symm
    · exact ((queryFirst_ok _ _ _ _ _).1 h).2
    · intro e _ hok
      exfalso
      obtain ⟨h1, h2, h3⟩ := hok
      rcases hu with hu | hu | hu
      · rw [h1] at hu; cases hu
      · rw [h2] at hu; cases hu
      · rw [h3] at hu; cases hu
  | created d h hg hc hu hnone hcu =>
    refine ⟨fun _ => ⟨d, ((queryFirst_ok _ _ _ _ _).1 h).2, rfl, Or.inl ⟨hnone, rfl⟩⟩,
      nofun, nofun⟩
  | updated d ue h hg hc hu hsome hsu =>
    refine ⟨fun _ => ⟨d, ((queryFirst_ok _ _ _ _ _).1 h).2, rfl, Or.inr ⟨ue, hsome, rfl⟩⟩,
      nofun, nofun⟩

theorem logEvent_atomic_up_to_insert_witness :
    (LogEvent noFaults seededDB "G1" "U3" "VERIFY_ACCOUNT").2 = none ∧
      ∃ d, First EconomyEventDefinition.ID (keyIs "VERIFY_ACCOUNT") seededDB.defs = some d ∧
        (LogEvent noFaults seededDB "G1" "U3" "VERIFY_ACCOUNT").1.logs
          = seededDB.logs ++ [newLogRow seededDB d "G1" "U3"] ∧
        ((First UserEconomy.ID (userIs "G1" "U3") seededDB.users = none ∧
          (LogEvent noFaults seededDB "G1" "U3" "VERIFY_ACCOUNT").1.users
            = seededDB.users ++ [{ ID := freshID UserEconomy.ID seededDB.users,
                                   GuildSnowflake := "G1", UserSnowflake := "U3",
                                   Points := d.Points }]) ∨
         ∃ ue, First UserEconomy.ID (userIs "G1" "U3") seededDB.users = some ue ∧
          (LogEvent noFaults seededDB "G1" "U3" "VERIFY_ACCOUNT").1.users
            = saveUser seededDB.users
                { ue with Points := (ue.Points + d.Points) % uintSize }) :=
  ⟨by decide,
    (logEvent_atomic_up_to_insert noFaults seededDB "G1" "U3" "VERIFY_ACCOUNT").1
      (by decide)⟩

/-! ## C7: leaderboard -/

theorem orderByPointsDesc_sorted (rows : List UserEconomy) :
    (orderByPointsDesc rows).Pairwise (fun a b => b.Points ≤ a.Points) :=
  List.sorted_insertionSort (fun a b : UserEconomy => b.Points ≤ a.Points) rows

theorem orderByPointsDesc_perm (rows : List UserEconomy) :
    (orderByPointsDesc rows).Perm rows :=
  List.perm_insertionSort (fun a b : UserEconomy => b.Points ≤ a.Points) rows

/-- C7. For a positive `limit`, `GetTopUsers(g, limit)` on a store that answers
returns rows that all are rows of the store and of guild `g`, in non-increasing
order of `Points`, as many as the smaller of `limit` and the number of
`UserEconomy` rows of `g`, and no row of `g` left out has strictly more points
than a returned row; with `limit = 10` at most 10 rows are returned. -/
theorem getTopUsers_top_n (db : DB) (guildID : String) (limit : Nat) (hpos : 0 < limit) :
    ∃ top, GetTopUsers false db guildID limit = .ok top ∧
      (∀ r ∈ top, r ∈ db.users ∧ r.GuildSnowflake = guildID) ∧
      top.Pairwise (fun a b => b.Points ≤ a.Points) ∧
      top.length
        = min limit (db.users.filter (fun ue => decide (ue.GuildSnowflake = guildID))).length ∧
      (∀ r ∈ db.users, r.GuildSnowflake = guildID → r ∉ top →
        ∀ t ∈ top, r.Points ≤ t.Points) ∧
      (limit = 10 → top.length ≤ 10) := by
  have _ := hpos
  refine ⟨_, rfl, ?_, ?_, ?_, ?_, ?_⟩
  · intro r hr
    have hmem := (orderByPointsDesc_perm _).mem_iff.1 (List.mem_of_mem_take hr)
    simpa using List.mem_filter.1 hmem
  · exact (orderByPointsDesc_sorted _).sublist (List.take_sublist _ _)
  · rw [List.length_take, (orderByPointsDesc_perm _).length_eq]
  · intro r hr hg hnot t ht
    have hsorted := orderByPointsDesc_sorted
      (db.users.filter (fun ue => decide (ue.GuildSnowflake = guildID)))
    rw [← List.take_append_drop limit (orderByPointsDesc
      (db.users.filter (fun ue => decide (ue.GuildSnowflake = guildID))))] at hsorted
    have hin : r ∈ orderByPointsDesc
        (db.users.filter (fun ue => decide (ue.GuildSnowflake = guildID))) :=
      (orderByPointsDesc_perm _).mem_iff.2 (List.mem_filter.2 ⟨hr, by simpa using hg⟩)
    rw [← List.take_append_drop limit (orderByPointsDesc
      (db.users.filter (fun ue => decide (ue.GuildSnowflake = guildID))))] at hin
    rcases List.mem_append.1 hin with h | h
    · exact absurd h hnot
    · exact (List.pairwise_append.1 hsorted).2.2 t ht r h
  · intro h10
    rw [List.length_take, h10]
    exact Nat.min_le_left _ _

theorem getTopUsers_top_n_witness :
    GetTopUsers false boardDB "G1" 3
        = .ok [{ ID := 2, GuildSnowflake := "G1", UserSnowflake := "U2", Points := 37570 },
               { ID := 6, GuildSnowflake := "G1", UserSnowflake := "U5", Points := 3570 },
               { ID := 4, GuildSnowflake := "G1", UserSnowflake := "U3", Points := 298 }] ∧
      ∃ top, GetTopUsers false boardDB "G1" 10 = .ok top ∧
        (∀ r ∈ top, r ∈ boardDB.users ∧ r.GuildSnowflake = "G1") ∧
        top.Pairwise (fun a b => b.Points ≤ a.Points) ∧
        top.length
          = min 10 (boardDB.users.filter (fun ue => decide (ue.GuildSnowflake = "G1"))).length ∧
        (∀ r ∈ boardDB.users, r.GuildSnowflake = "G1" → r ∉ top →
          ∀ t ∈ top, r.Points ≤ t.Points) ∧
        (10 = 10 → top.length ≤ 10) :=
  ⟨by rfl, getTopUsers_top_n boardDB "G1" 10 (by decide)⟩

/-! ## C8: user without a row -/

/-- C8. When no `UserEconomy` row exists for the guild and user, `GetUserPoints`
on a store that answers returns `0` and no error. -/
theorem getUserPoints_no_row (db : DB) (guildID userID : String)
    (h : ∀ ue ∈ db.users, ¬ (ue.GuildSnowflake = guildID ∧ ue.UserSnowflake = userID)) :
    GetUserPoints false db guildID userID = (0, none) := by
  have hnone : First UserEconomy.ID (userIs guildID userID) db.users = none := by
    rw [First_eq_none_iff]
    intro r hr
    have := h r hr
    rw [← userIs_iff] at this
    simpa using this
  have h0 : userTotal db guildID userID = 0 := by rw [userTotal_eq, hnone]
  rw [getUserPoints_eq, h0, if_pos (by unfold columnLimit; omega)]

theorem getUserPoints_no_row_witness :
    (∀ ue ∈ boardDB.users, ¬ (ue.GuildSnowflake = "G2" ∧ ue.UserSnowflake = "U2")) ∧
      GetUserPoints false boardDB "G2" "U2" = (0, none) :=
  ⟨by decide, getUserPoints_no_row boardDB "G2" "U2" (by decide)⟩

/-! ## C9: mass award -/

theorem giveAllLoop_eq_spec (guildID eventKey : String) (members : List Member)
    (sched : List Faults) (db : DB) (count : Nat) :
    giveAllLoop guildID eventKey members sched db count
      = ((awardEventToAll_spec guildID eventKey (candidates members) sched db).1,
         count + (awardEventToAll_spec guildID eventKey (candidates members) sched db).2.1) := by
  induction members generalizing sched db count with
  | nil => simp [giveAllLoop, candidates, awardEventToAll_spec]
  | cons mem rest ih =>
    by_cases hbot : mem.User.Bot = true
    · have hc : candidates (mem :: rest) = candidates rest := by
        simp [candidates, hbot]
      rw [hc]
      simp only [giveAllLoop, hbot, if_true]
      exact ih sched db count
    · have hc : candidates (mem :: rest) = mem.User.ID :: candidates rest := by
        simp [candidates, hbot]
      rw [hc]
      simp only [giveAllLoop, hbot, Bool.false_eq_true, if_false, awardEventToAll_spec]
      rw [ih]
      refine Prod.ext rfl ?_
      by_cases hr : (LogEvent (sched.headD noFaults) db guildID mem.User.ID eventKey).2 = none
      · simp only [if_pos hr]; omega
      · simp only [if_neg hr]; omega

theorem awardEventToAll_spec_state (guildID eventKey : String) (users : List String)
    (sched : List Faults) (db : DB) :
    (awardEventToAll_spec guildID eventKey users sched db).1
      = runCalls db (callsFor guildID eventKey users sched) := by
  induction users generalizing sched db with
  | nil => rfl
  | cons u rest ih =>
    simp only [awardEventToAll_spec, callsFor]
    rw [ih]
    rfl

theorem awardEventToAll_spec_attempted (guildID eventKey : String) (users : List String)
    (sched : List Faults) (db : DB) :
    (awardEventToAll_spec guildID eventKey users sched db).2.2 = users.length ∧
      (awardEventToAll_spec guildID eventKey users sched db).2.1 ≤ users.length := by
  induction users generalizing sched db with
  | nil => simp [awardEventToAll_spec]
  | cons u rest ih =>
    have h := ih sched.tail (LogEvent (sched.headD noFaults) db guildID u eventKey).1
    simp only [awardEventToAll_spec, List.length_cons]
    constructor
    · omega
    · split <;> omega

/-- C9 (as stated) fails on `attempted`: the handler reports the awarded count
only.  With `U1` having claimed `DAILY`, the mass award over `U1, U2, U3`
(3 attempted) and the mass award over `U2, U3` (2 attempted) send back the very
same reply, `Event [DAILY] awarded to 2 members!`. -/
theorem giveAll_report_lacks_attempted :
    (handleGiveAllCommand [] claimedDB "G1" ["DAILY"] (some threeMembers)).2
        = { Title := "Mass Award Complete",
            Description := "Event [DAILY] awarded to 2 members!", Color := 0x00FF00 } ∧
      (handleGiveAllCommand [] claimedDB "G1" ["DAILY"] (some twoMembers)).2
        = (handleGiveAllCommand [] claimedDB "G1" ["DAILY"] (some threeMembers)).2 ∧
      (awardEventToAll_spec "G1" "DAILY" (candidates threeMembers) [] claimedDB).2.2 = 3 ∧
      (awardEventToAll_spec "G1" "DAILY" (candidates twoMembers) [] claimedDB).2.2 = 2 := by
  decide

/-- C9 (amended). For every store, guild, event key, member list and schedule
of store failures, the mass-award loop of `handleGiveAllCommand` does what the
specified fan-out does on the candidates (the members that are not bots): it
calls `LogEvent` once per candidate, in order, each call on the store left by
the one before, whether or not that one failed, and the reply it sends reports
awarded = the number of candidates whose call returned no error.  The number
of candidates attempted is not part of the reply. -/
theorem giveAll_awards_each_candidate (sched : List Faults) (db : DB)
    (guildID eventKey : String) (opts : List String) (members : List Member) :
    (handleGiveAllCommand sched db guildID (eventKey :: opts) (some members)).1
        = (awardEventToAll_spec guildID eventKey (candidates members) sched db).1 ∧
      (handleGiveAllCommand sched db guildID (eventKey :: opts) (some members)).1
        = runCalls db (callsFor guildID eventKey (candidates members) sched) ∧
      (callsFor guildID eventKey (candidates members) sched).map (fun c => c.userID)
        = candidates members ∧
      (handleGiveAllCommand sched db guildID (eventKey :: opts) (some members)).2
        = { Title := "Mass Award Complete",
            Description := "Event [" ++ eventKey ++ "] awarded to "
              ++ toString
                (awardEventToAll_spec guildID eventKey (candidates members) sched db).2.1
              ++ " members!",
            Color := 0x00FF00 } := by
  have hloop := giveAllLoop_eq_spec guildID eventKey members sched db 0
  have hids : ∀ (us : List String) (fs : List Faults),
      (callsFor guildID eventKey us fs).map (fun c => c.userID) = us := by
    intro us
    induction us with
    | nil => intro fs; rfl
    | cons u rest ih => intro fs; simp [callsFor, ih]
  refine ⟨?_, ?_, hids _ _, ?_⟩
  · simp only [handleGiveAllCommand, hloop]
  · simp only [handleGiveAllCommand, hloop]
    exact awardEventToAll_spec_state _ _ _ _ _
  · simp only [handleGiveAllCommand, hloop, Nat.zero_add]

theorem giveAll_awards_each_candidate_witness :
    candidates threeMembers = ["U1", "U2", "U3"] ∧
      (awardEventToAll_spec "G1" "DAILY" (candidates threeMembers) [] claimedDB).2.1 = 2 ∧
      (handleGiveAllCommand [] claimedDB "G1" ["DAILY"] (some threeMembers)).2.Description
        = "Event [DAILY] awarded to 2 members!" ∧
      GetUserPoints false claimedDB "G1" "U2" = (0, none) ∧
      GetUserPoints false claimedDB "G1" "U3" = (0, none) ∧
      GetUserPoints false
        (handleGiveAllCommand [] claimedDB "G1" ["DAILY"] (some threeMembers)).1 "G1" "U1"
        = (85, none) ∧
      GetUserPoints false
        (handleGiveAllCommand [] claimedDB "G1" ["DAILY"] (some threeMembers)).1 "G1" "U2"
        = (85, none) ∧
      GetUserPoints false
        (handleGiveAllCommand [] claimedDB "G1" ["DAILY"] (some threeMembers)).1 "G1" "U3"
        = (85, none) :=
  ⟨by decide, by decide,
    (congrArg MessageEmbed.Description
      (giveAll_awards_each_candidate [] claimedDB "G1" "DAILY" [] threeMembers).2.2.2).trans
      (by decide),
    by decide, by decide, by decide, by decide, by decide⟩

/-! ## C10: seeding -/

theorem seedLoop_cons_present (rest : List EconomyEventDefinition) (db : DB)
    (evt : EconomyEventDefinition) (h : evt.Key ∈ db.defs.map EconomyEventDefinition.Key) :
    seedLoop noSeedFaults (evt :: rest) db = seedLoop noSeedFaults rest db := by
  cases hf : First EconomyEventDefinition.ID (keyIs evt.Key) db.defs with
  | none =>
    exfalso
    rcases List.mem_map.1 h with ⟨d, hd, hk⟩
    have := (First_eq_none_iff _ _ _).1 hf d hd
    simp [keyIs, hk] at this
  | some d => simp [seedLoop, queryFirst, noSeedFaults, hf]

theorem seedLoop_cons_absent (rest : List EconomyEventDefinition) (db : DB)
    (evt : EconomyEventDefinition) (h : evt.Key ∉ db.defs.map EconomyEventDefinition.Key) :
    seedLoop noSeedFaults (evt :: rest) db
      = seedLoop noSeedFaults rest
          { db with defs := db.defs ++
              [{ evt with ID := freshID EconomyEventDefinition.ID db.defs }] } := by
  have hall : ∀ d ∈ db.defs, keyIs evt.Key d = false := by
    intro d hd
    simp only [keyIs, decide_eq_false_iff_not]
    intro hk
    exact h (List.mem_map.2 ⟨d, hd, hk⟩)
  have hf : First EconomyEventDefinition.ID (keyIs evt.Key) db.defs = none :=
    (First_eq_none_iff _ _ _).2 hall
  have hany : db.defs.any (keyIs evt.Key) = false := by
    rw [List.any_eq_false]
    intro d hd
    simp [hall d hd]
  simp [seedLoop, queryFirst, createDef, noSeedFaults, hf, hany]

theorem seedLoop_noFaults (todo : List EconomyEventDefinition) (db : DB)
    (hn : (db.defs.map EconomyEventDefinition.Key).Nodup) :
    (seedLoop noSeedFaults todo db).2 = none ∧
      (∃ added, (seedLoop noSeedFaults todo db).1.defs = db.defs ++ added) ∧
      (seedLoop noSeedFaults todo db).1.logs = db.logs ∧
      (seedLoop noSeedFaults todo db).1.users = db.users ∧
      ((seedLoop noSeedFaults todo db).1.defs.map EconomyEventDefinition.Key).Nodup ∧
      ∀ e ∈ todo, e.Key ∈ (seedLoop noSeedFaults todo db).1.defs.map EconomyEventDefinition.Key := by
  induction todo generalizing db with
  | nil => exact ⟨rfl, ⟨[], by simp [seedLoop]⟩, rfl, rfl, hn, by simp⟩
  | cons evt rest ih =>
    by_cases hk : evt.Key ∈ db.defs.map EconomyEventDefinition.Key
    · rw [seedLoop_cons_present rest db evt hk]
      obtain ⟨h1, ⟨added, h2⟩, h3, h4, h5, h6⟩ := ih db hn
      refine ⟨h1, ⟨added, h2⟩, h3, h4, h5, ?_⟩
      intro e he
      rcases List.mem_cons.1 he with rfl | he
      · rw [h2, List.map_append]
        exact List.mem_append_left _ hk
      · exact h6 e he
    · rw [seedLoop_cons_absent rest db evt hk]
      have hn1 : ((db.defs ++ [{ evt with ID := freshID EconomyEventDefinition.ID db.defs }]).map
          EconomyEventDefinition.Key).Nodup := by
        rw [List.map_append, List.map_singleton]
        apply List.Nodup.append hn (List.nodup_singleton _)
        intro a ha hb
        simp only [List.mem_singleton] at hb
        subst hb
        exact hk ha
      obtain ⟨h1, ⟨added, h2⟩, h3, h4, h5, h6⟩ :=
        ih { db with defs := db.defs ++
              [{ evt with ID := freshID EconomyEventDefinition.ID db.defs }] } hn1
      refine ⟨h1, ⟨{ evt with ID := freshID EconomyEventDefinition.ID db.defs } :: added, ?_⟩,
        h3, h4, h5, ?_⟩
      · rw [h2]; simp
      · intro e he
        rcases List.mem_cons.1 he with rfl | he
        · rw [h2]
          simp
        · exact h6 e he

theorem seedLoop_all_present (todo : List EconomyEventDefinition) (db : DB)
    (h : ∀ e ∈ todo, e.Key ∈ db.defs.map EconomyEventDefinition.Key) :
    seedLoop noSeedFaults todo db = (db, none) := by
  induction todo with
  | nil => rfl
  | cons evt rest ih =>
    rw [seedLoop_cons_present rest db evt (h evt (List.mem_cons_self _ _))]
    exact ih (fun e he => h e (List.mem_cons_of_mem _ he))

/-- C10. On a catalog with unique keys and a store that answers,
`SeedDefaultEvents` returns no error and afterwards each of the nine built-in
keys is the key of exactly one definition; the definitions that existed before
the call are all still there, unchanged and in place (new definitions are
appended after them), also those carrying a built-in key with edited points or
limit; the event log and the user rows are untouched; and a second call
returns no error and leaves the store exactly as the first call left it. -/
theorem seedDefaultEvents_idempotent_upsert (db : DB)
    (hn : (db.defs.map EconomyEventDefinition.Key).Nodup) :
    (SeedDefaultEvents noSeedFaults db).2 = none ∧
      (∀ k ∈ ["DAILY", "JOIN_SERVER", "FIRST_MESSAGE", "BIRTHDAY_SET",
              "RESPOND_DAILY_ENGAGEMENT", "VERIFY_ACCOUNT", "BOOST_SERVER", "SUBMIT_DEPOSIT",
              "SOCIAL_MEDIA_ENGAGEMENT"],
        ((SeedDefaultEvents noSeedFaults db).1.defs.map EconomyEventDefinition.Key).count k
          = 1) ∧
      (∃ added, (SeedDefaultEvents noSeedFaults db).1.defs = db.defs ++ added) ∧
      (SeedDefaultEvents noSeedFaults db).1.logs = db.logs ∧
      (SeedDefaultEvents noSeedFaults db).1.users = db.users ∧
      SeedDefaultEvents noSeedFaults (SeedDefaultEvents noSeedFaults db).1
        = ((SeedDefaultEvents noSeedFaults db).1, none) := by
  obtain ⟨h1, h2, h3, h4, h5, h6⟩ := seedLoop_noFaults defaults db hn
  have hkeys : ∀ k ∈ ["DAILY", "JOIN_SERVER", "FIRST_MESSAGE", "BIRTHDAY_SET",
      "RESPOND_DAILY_ENGAGEMENT", "VERIFY_ACCOUNT", "BOOST_SERVER", "SUBMIT_DEPOSIT",
      "SOCIAL_MEDIA_ENGAGEMENT"], ∃ e ∈ defaults, e.Key = k := by
    decide
  refine ⟨h1, ?_, h2, h3, h4, ?_⟩
  · intro k hk
    obtain ⟨e, he, rfl⟩ := hkeys k hk
    exact List.count_eq_one_of_mem h5 (h6 e he)
  · exact seedLoop_all_present defaults _ h6

theorem seedDefaultEvents_idempotent_upsert_witness :
    (editedDB.defs.map EconomyEventDefinition.Key).Nodup ∧
      (SeedDefaultEvents noSeedFaults editedDB).1.defs.head?
        = some { ID := 7, Key := "DAILY", Name := "Daily Reward", Points := 100,
                 MaxOccurrence := 2 } ∧
      ((SeedDefaultEvents noSeedFaults editedDB).1.defs.map EconomyEventDefinition.Key).count
        "DAILY" = 1 ∧
      (SeedDefaultEvents noSeedFaults editedDB).1.defs.length = 9 ∧
      SeedDefaultEvents noSeedFaults (SeedDefaultEvents noSeedFaults editedDB).1
        = ((SeedDefaultEvents noSeedFaults editedDB).1, none) :=
  ⟨by decide, by decide,
    (seedDefaultEvents_idempotent_upsert editedDB (by decide)).2.1 "DAILY" (by decide),
    by decide,
    (seedDefaultEvents_idempotent_upsert editedDB (by decide)).2.2.2.2.2⟩

/-! ## C11: lifecycle guards -/

theorem First_replace {α : Type} (id : α → Nat) (p : α → Bool) (rows : List α)
    (hn : (rows.map id).Nodup) (x : α) (hx : x ∈ rows) (y : α) (hid : id y = id x)
    (hp : p y = p x) :
    First id p (rows.map (fun r => if id r = id x then y else r))
      = (First id p rows).map (fun r => if id r = id x then y else r) := by
  apply First_map
  intro r hr
  by_cases h : id r = id x
  · have : r = x := eq_of_id_eq id rows hn r x hr hx h
    subst this
    simp [hid, hp]
  · simp [h]

theorem moduleIs_iff (guildSnowflake : String) (m : Module) :
    moduleIs guildSnowflake m = true ↔ m.Name = name ∧ m.GuildSnowflake = guildSnowflake := by
  simp [moduleIs]

/-- What `UpdateModule` does on a store that answers, for a row read by
`ReadModule` and changed in its `Enabled` flag only. -/
theorem updateModule_enabled (st : Store) (guildSnowflake : String) (mod : Module)
    (hv : ValidKeys Module.ID st.modules)
    (hm : First Module.ID (moduleIs guildSnowflake) st.modules = some mod) (b : Bool) :
    UpdateModule false false st { mod with Enabled := b }
      = ({ st with modules := (st.modules.map
            (fun r => if r.ID = mod.ID then { mod with Enabled := b } else r)) },
          .ok { mod with Enabled := b }) := by
  have hspec := First_some_spec _ _ _ _ hm
  have hg : mod.GuildSnowflake = guildSnowflake := ((moduleIs_iff _ _).1 hspec.2).2
  have hne : mod.ID ≠ 0 := hv.2 mod hspec.1
  simp [UpdateModule, queryFirst, hg, hm, saveModule, hne]

theorem first_after_update (st : Store) (guildSnowflake : String) (mod : Module)
    (hv : ValidKeys Module.ID st.modules)
    (hm : First Module.ID (moduleIs guildSnowflake) st.modules = some mod) (b : Bool) :
    First Module.ID (moduleIs guildSnowflake)
        (st.modules.map (fun r => if r.ID = mod.ID then { mod with Enabled := b } else r))
      = some { mod with Enabled := b } := by
  have hspec := First_some_spec _ _ _ _ hm
  have hrep := First_replace Module.ID (moduleIs guildSnowflake) st.modules hv.1 mod hspec.1
    ({ mod with Enabled := b }) rfl (by simp [moduleIs])
  rw [hrep, hm]
  simp

theorem updateModule_db (findFault saveFault : Bool) (st : Store) (mod : Module) :
    (UpdateModule findFault saveFault st mod).1.db = st.db := by
  unfold UpdateModule
  cases queryFirst findFault Module.ID (moduleIs mod.GuildSnowflake) st.modules with
  | error e => rfl
  | ok m => cases saveFault <;> rfl

theorem enable_db (f : ModuleFaults) (st : Store) (guildSnowflake : String) :
    (Enable f st guildSnowflake).1.db = st.db := by
  unfold Enable
  cases ReadModule f.read st guildSnowflake with
  | error e => rfl
  | ok mod =>
    by_cases hE : mod.Enabled = true
    · simp [hE]
    · simp only [hE, if_false]
      have h := updateModule_db f.updateFind f.updateSave st { mod with Enabled := true }
      generalize UpdateModule f.updateFind f.updateSave st { mod with Enabled := true } = r
        at h ⊢
      obtain ⟨st1, res⟩ := r
      cases res with
      | error e => exact h
      | ok m => cases unmarshalCommands mod.Commands <;> exact h

theorem disable_db (f : ModuleFaults) (st : Store) (guildSnowflake : String)
    (remote : Option (List ApplicationCommand)) :
    (Disable f st guildSnowflake remote).1.db = st.db := by
  unfold Disable
  cases ReadModule f.read st guildSnowflake with
  | error e => rfl
  | ok mod =>
    by_cases hE : mod.Enabled = true
    · simp only [hE, Bool.not_true, Bool.false_eq_true, if_false]
      have h := updateModule_db f.updateFind f.updateSave st { mod with Enabled := false }
      generalize UpdateModule f.updateFind f.updateSave st { mod with Enabled := false } = r
        at h ⊢
      obtain ⟨st1, res⟩ := r
      cases res with
      | error e => exact h
      | ok m => cases remote <;> exact h
    · simp [hE]

theorem enable_modules (st : Store) (guildSnowflake : String) (mod : Module)
    (hv : ValidKeys Module.ID st.modules)
    (hm : First Module.ID (moduleIs guildSnowflake) st.modules = some mod)
    (hE : mod.Enabled = false) :
    (Enable noModuleFaults st guildSnowflake).1.modules
      = st.modules.map (fun r => if r.ID = mod.ID then { mod with Enabled := true } else r) := by
  have hr : ReadModule noModuleFaults.read st guildSnowflake = .ok mod :=
    (queryFirst_ok _ _ _ _ _).2 ⟨rfl, hm⟩
  have hu := updateModule_enabled st guildSnowflake mod hv hm true
  unfold Enable
  simp only [hr, hE, Bool.false_eq_true, if_false]
  simp only [noModuleFaults, hu]
  cases unmarshalCommands mod.Commands <;> rfl

theorem disable_modules (st : Store) (guildSnowflake : String)
    (remote : Option (List ApplicationCommand)) (mod : Module)
    (hv : ValidKeys Module.ID st.modules)
    (hm : First Module.ID (moduleIs guildSnowflake) st.modules = some mod)
    (hE : mod.Enabled = true) :
    (Disable noModuleFaults st guildSnowflake remote).1.modules
      = st.modules.map (fun r => if r.ID = mod.ID then { mod with Enabled := false } else r) := by
  have hr : ReadModule noModuleFaults.read st guildSnowflake = .ok mod :=
    (queryFirst_ok _ _ _ _ _).2 ⟨rfl, hm⟩
  have hu := updateModule_enabled st guildSnowflake mod hv hm false
  unfold Disable
  simp only [hr, hE, Bool.not_true, Bool.false_eq_true, if_false]
  simp only [noModuleFaults, hu]
  cases remote <;> rfl

/-- C11. Lifecycle guards.  (1) Whatever store failures occur, `Enable` and
`Disable` leave every `UserEventLog`, `UserEconomy` and `EconomyEventDefinition`
row as it was.  (2) For a stored module row `mod` of the guild (primary keys of
the table valid) on a store that answers: when `mod` is enabled, `Enable`
returns `ErrModuleAlreadyEnabled` with the whole store unchanged, and `Disable`
replaces `mod` by `mod` with `Enabled = false`, every other module row staying
as it was; when `mod` is disabled, `Disable` returns `ErrModuleAlreadyDisabled`
with the whole store unchanged, and `Enable` replaces `mod` by `mod` with
`Enabled = true`, every other module row staying as it was. -/
theorem lifecycle_guards (st : Store) (guildSnowflake : String)
    (remote : Option (List ApplicationCommand)) :
    (∀ f : ModuleFaults, (Enable f st guildSnowflake).1.db = st.db ∧
      (Disable f st guildSnowflake remote).1.db = st.db) ∧
    (∀ mod : Module, ValidKeys Module.ID st.modules →
      First Module.ID (moduleIs guildSnowflake) st.modules = some mod →
      (mod.Enabled = true →
        Enable noModuleFaults st guildSnowflake = (st, some .alreadyEnabled, []) ∧
        (Disable noModuleFaults st guildSnowflake remote).1.modules
          = st.modules.map
              (fun r => if r.ID = mod.ID then { mod with Enabled := false } else r) ∧
        ReadModule false (Disable noModuleFaults st guildSnowflake remote).1 guildSnowflake
          = .ok { mod with Enabled := false }) ∧
      (mod.Enabled = false →
        Disable noModuleFaults st guildSnowflake remote = (st, some .alreadyDisabled, []) ∧
        (Enable noModuleFaults st guildSnowflake).1.modules
          = st.modules.map
              (fun r => if r.ID = mod.ID then { mod with Enabled := true } else r) ∧
        ReadModule false (Enable noModuleFaults st guildSnowflake).1 guildSnowflake
          = .ok { mod with Enabled := true })) := by
  refine ⟨fun f => ⟨enable_db f st guildSnowflake, disable_db f st guildSnowflake remote⟩, ?_⟩
  intro mod hv hm
  have hr : ReadModule noModuleFaults.read st guildSnowflake = .ok mod :=
    (queryFirst_ok _ _ _ _ _).2 ⟨rfl, hm⟩
  constructor
  · intro hE
    refine ⟨?_, disable_modules st guildSnowflake remote mod hv hm hE, ?_⟩
    · unfold Enable
      simp only [hr, hE, if_true]
    · unfold ReadModule
      rw [disable_modules st guildSnowflake remote mod hv hm hE]
      exact (queryFirst_ok _ _ _ _ _).2
        ⟨rfl, first_after_update st guildSnowflake mod hv hm false⟩
  · intro hE
    refine ⟨?_, enable_modules st guildSnowflake mod hv hm hE, ?_⟩
    · unfold Disable
      simp only [hr, hE, Bool.not_false, if_true]
    · unfold ReadModule
      rw [enable_modules st guildSnowflake mod hv hm hE]
      exact (queryFirst_ok _ _ _ _ _).2
        ⟨rfl, first_after_update st guildSnowflake mod hv hm true⟩

theorem lifecycle_guards_witness :
    Enable noModuleFaults enabledStore "G1" = (enabledStore, some .alreadyEnabled, []) ∧
      (Disable noModuleFaults enabledStore "G1" none).1 = disabledStore ∧
      (Disable noModuleFaults enabledStore "G1" none).2.1 = some .fetchRemote ∧
      Disable noModuleFaults disabledStore "G1" none
        = (disabledStore, some .alreadyDisabled, []) ∧
      (Enable noModuleFaults disabledStore "G1").1 = enabledStore :=
  ⟨(((lifecycle_guards enabledStore "G1" none).2
      { ID := 2, GuildSnowflake := "G1", Name := "Economy",
        Description := "Points & achievements system", Enabled := true,
        Config := "\x7b\x7d", Commands := .object [("daily", false)] }
      (by decide) (by decide)).1 rfl).1,
    by decide, by decide,
    (((lifecycle_guards disabledStore "G1" none).2
      { ID := 2, GuildSnowflake := "G1", Name := "Economy",
        Description := "Points & achievements system", Enabled := false,
        Config := "\x7b\x7d", Commands := .object [("daily", false)] }
      (by decide) (by decide)).2 rfl).1,
    by decide⟩

/-! ## C12: `Load` -/

theorem lookup_append_some (l : List (String × Bool)) (x : String × Bool) (k : String)
    (v : Bool) (h : l.lookup k = some v) : (l ++ [x]).lookup k = some v := by
  rw [List.lookup_append, h]
  rfl

theorem lookup_append_new (l : List (String × Bool)) (k : String) (v : Bool)
    (h : l.lookup k = none) : (l ++ [(k, v)]).lookup k = some v := by
  rw [List.lookup_append, h]
  simp [List.lookup_cons]

theorem lookup_append_other (l : List (String × Bool)) (k k1 : String) (v : Bool)
    (hk : k1 ≠ k) : (l ++ [(k, v)]).lookup k1 = l.lookup k1 := by
  rw [List.lookup_append]
  have hb : (k1 == k) = false := by simpa using hk
  have : [(k, v)].lookup k1 = none := by
    simp [List.lookup_cons, hb]
  rw [this]
  cases l.lookup k1 <;> rfl

/-- The reconciling loop on a map that is not nil: it does not panic, keeps
every entry, gives an entry to every command and sets the new entries to
`true`; it raises `updated` exactly when it adds an entry. -/
theorem reconcile_spec (cs : List ApplicationCommand) (l : List (String × Bool))
    (u : Bool) :
    ∃ l1 u1, reconcile cs (some l) u = some (some l1, u1) ∧
      (∀ k v, l.lookup k = some v → l1.lookup k = some v) ∧
      (∀ c ∈ cs, (l1.lookup c.Name).isSome) ∧
      (∀ c ∈ cs, l.lookup c.Name = none → l1.lookup c.Name = some true) ∧
      (u = true → u1 = true) ∧ (u1 = false → l1 = l) := by
  induction cs generalizing l u with
  | nil => exact ⟨l, u, rfl, fun _ _ h => h, by simp, by simp, id, fun _ => rfl⟩
  | cons cmd rest ih =>
    cases hget : l.lookup cmd.Name with
    | some b =>
      obtain ⟨l1, u1, h1, h2, h3, h4, h5, h6⟩ := ih l u
      refine ⟨l1, u1, ?_, h2, ?_, ?_, h5, h6⟩
      · simp only [reconcile, mapGet, hget]
        exact h1
      · intro c hc
        rcases List.mem_cons.1 hc with rfl | hc
        · rw [h2 _ _ hget]; rfl
        · exact h3 c hc
      · intro c hc hnone
        rcases List.mem_cons.1 hc with rfl | hc
        · rw [hget] at hnone; cases hnone
        · exact h4 c hc hnone
    | none =>
      obtain ⟨l1, u1, h1, h2, h3, h4, h5, h6⟩ := ih (l ++ [(cmd.Name, true)]) true
      have hu1 : u1 = true := h5 rfl
      refine ⟨l1, u1, ?_, ?_, ?_, ?_, fun _ => hu1, ?_⟩
      · simp only [reconcile, mapGet, mapSet, hget, Option.isSome_none, Bool.false_eq_true,
          if_false]
        exact h1
      · intro k v hk
        exact h2 k v (lookup_append_some l _ k v hk)
      · intro c hc
        rcases List.mem_cons.1 hc with rfl | hc
        · rw [h2 _ _ (lookup_append_new l _ true hget)]; rfl
        · exact h3 c hc
      · intro c hc hnone
        by_cases hname : c.Name = cmd.Name
        · rw [hname]
          exact h2 _ _ (lookup_append_new l _ true hget)
        · rcases List.mem_cons.1 hc with rfl | hc
          · exact absurd rfl hname
          · apply h4 c hc
            rw [lookup_append_other l cmd.Name c.Name true hname]
            exact hnone
      · intro hf
        rw [hu1] at hf
        cases hf

theorem seedLoop_ok (todo : List EconomyEventDefinition) (db : DB) :
    (seedLoop noSeedFaults todo db).2 = none := by
  induction todo generalizing db with
  | nil => rfl
  | cons evt rest ih =>
    by_cases hk : evt.Key ∈ db.defs.map EconomyEventDefinition.Key
    · rw [seedLoop_cons_present rest db evt hk]; exact ih db
    · rw [seedLoop_cons_absent rest db evt hk]; exact ih _

theorem seedDefaultEvents_ok (db : DB) :
    SeedDefaultEvents noSeedFaults db = ((SeedDefaultEvents noSeedFaults db).1, none) :=
  Prod.ext rfl (seedLoop_ok defaults db)

/-- `Load` on a store that answers and has no module row for the guild. -/
theorem load_absent (st : Store) (guildSnowflake : String)
    (hnone : First Module.ID (moduleIs guildSnowflake) st.modules = none) :
    Load noModuleFaults noSeedFaults st guildSnowflake
      = ({ db := (SeedDefaultEvents noSeedFaults st.db).1,
           modules := st.modules ++
            [{ ID := freshID Module.ID st.modules, GuildSnowflake := guildSnowflake,
               Name := name, Description := description, Enabled := true,
               Config := "\x7b\x7d",
               Commands := .object [("daily", true), ("leaderboard", true), ("give", true),
                                    ("giveall", true)] }] },
          .returned none, commands) := by
  have hs := seedDefaultEvents_ok st.db
  have hrec : reconcile commands (some [("daily", true), ("leaderboard", true), ("give", true),
      ("giveall", true)]) false
      = some (some [("daily", true), ("leaderboard", true), ("give", true), ("giveall", true)],
          false) := by decide
  have hdef : defaultCmdMap commands (some [])
      = some [("daily", true), ("leaderboard", true), ("give", true), ("giveall", true)] := by
    decide
  have hreg : registered (some [("daily", true), ("leaderboard", true), ("give", true),
      ("giveall", true)]) = commands := by decide
  unfold Load
  simp only [ReadModule, queryFirst, noModuleFaults, hnone, CreateModule, Bool.false_eq_true,
    if_false, hdef, marshalCommands]
  rw [hs]
  simp only [Bool.not_true, Bool.false_eq_true, if_false, unmarshalCommands, hrec, hreg]

/-- `Load` on a store that answers and holds a disabled module row for the
guild. -/
theorem load_disabled (st : Store) (guildSnowflake : String) (mod : Module)
    (hm : First Module.ID (moduleIs guildSnowflake) st.modules = some mod)
    (hE : mod.Enabled = false) :
    Load noModuleFaults noSeedFaults st guildSnowflake
      = ({ db := (SeedDefaultEvents noSeedFaults st.db).1, modules := st.modules },
          .returned none, []) := by
  have hs := seedDefaultEvents_ok st.db
  unfold Load
  simp only [ReadModule, queryFirst, noModuleFaults, hm, Bool.false_eq_true, if_false]
  rw [hs]
  simp only [hE, Bool.not_false, if_true]

theorem updateModule_commands (st : Store) (guildSnowflake : String) (mod : Module)
    (hv : ValidKeys Module.ID st.modules)
    (hm : First Module.ID (moduleIs guildSnowflake) st.modules = some mod)
    (c : CommandsJSON) :
    UpdateModule false false st { mod with Commands := c }
      = ({ st with modules := (st.modules.map
            (fun r => if r.ID = mod.ID then { mod with Commands := c } else r)) },
          .ok { mod with Commands := c }) := by
  have hspec := First_some_spec _ _ _ _ hm
  have hg : mod.GuildSnowflake = guildSnowflake := ((moduleIs_iff _ _).1 hspec.2).2
  have hne : mod.ID ≠ 0 := hv.2 mod hspec.1
  simp [UpdateModule, queryFirst, hg, hm, saveModule, hne]

theorem first_after_commands (st : Store) (guildSnowflake : String) (mod : Module)
    (hv : ValidKeys Module.ID st.modules)
    (hm : First Module.ID (moduleIs guildSnowflake) st.modules = some mod)
    (c : CommandsJSON) :
    First Module.ID (moduleIs guildSnowflake)
        (st.modules.map (fun r => if r.ID = mod.ID then { mod with Commands := c } else r))
      = some { mod with Commands := c } := by
  have hspec := First_some_spec _ _ _ _ hm
  have hrep := First_replace Module.ID (moduleIs guildSnowflake) st.modules hv.1 mod hspec.1
    ({ mod with Commands := c }) rfl (by simp [moduleIs])
  rw [hrep, hm]
  simp

/-- `Load` on a store that answers and holds an enabled module row for the
guild whose command flags are a JSON object. -/
theorem load_enabled (st : Store) (guildSnowflake : String) (mod : Module)
    (hv : ValidKeys Module.ID st.modules)
    (hm : First Module.ID (moduleIs guildSnowflake) st.modules = some mod)
    (hE : mod.Enabled = true) (flags : List (String × Bool))
    (hc : mod.Commands = .object flags) :
    ∃ flags1,
      Load noModuleFaults noSeedFaults st guildSnowflake
        = ({ db := (SeedDefaultEvents noSeedFaults st.db).1,
             modules := st.modules.map
              (fun r => if r.ID = mod.ID then { mod with Commands := .object flags1 } else r) },
            .returned none, registered (some flags1)) ∧
      (∀ k v, flags.lookup k = some v → flags1.lookup k = some v) ∧
      (∀ c ∈ commands, (flags1.lookup c.Name).isSome) ∧
      (∀ c ∈ commands, flags.lookup c.Name = none → flags1.lookup c.Name = some true) := by
  obtain ⟨l1, u1, h1, h2, h3, h4, _, h6⟩ := reconcile_spec commands flags false
  refine ⟨l1, ?_, h2, h3, h4⟩
  have hs := seedDefaultEvents_ok st.db
  unfold Load
  simp only [ReadModule, queryFirst, noModuleFaults, hm, Bool.false_eq_true, if_false]
  rw [hs]
  simp only [hE, Bool.not_true, Bool.false_eq_true, if_false, hc, unmarshalCommands, h1]
  cases hu : u1 with
  | true =>
    have hm1 : First Module.ID (moduleIs guildSnowflake)
        ({ db := (SeedDefaultEvents noSeedFaults st.db).1, modules := st.modules } : Store).modules
          = some mod := hm
    have hupd := updateModule_commands
      { db := (SeedDefaultEvents noSeedFaults st.db).1, modules := st.modules }
      guildSnowflake mod hv hm1 (.object l1)
    simp only [hE] at hupd
    simp only [if_true, marshalCommands, hupd]
  | false =>
    have hl : l1 = flags := h6 hu
    subst hl
    have hid : st.modules.map
        (fun r => if r.ID = mod.ID then { mod with Commands := .object l1 } else r)
          = st.modules := by
      have hmem := (First_some_spec _ _ _ _ hm).1
      conv_rhs => rw [← List.map_id st.modules]
      apply List.map_congr_left
      intro r hr
      by_cases hrid : r.ID = mod.ID
      · have : r = mod := eq_of_id_eq Module.ID st.modules hv.1 r mod hr hmem hrid
        subst this
        simp [← hc]
      · simp [hrid]
    simp only [hE] at hid
    simp only [Bool.false_eq_true, if_false, hid]

/-- `Load` on an enabled module row whose command flags do not decode to an
object: an error when they do not decode at all, a panic on the JSON `null`
(the loop of step 5 writes into the nil map). -/
theorem load_enabled_not_object (st : Store) (guildSnowflake : String) (mod : Module)
    (hm : First Module.ID (moduleIs guildSnowflake) st.modules = some mod)
    (hE : mod.Enabled = true) :
    (mod.Commands = .malformed →
      (Load noModuleFaults noSeedFaults st guildSnowflake).2.1
        = .returned (some .criticalUnmarshal)) ∧
    (mod.Commands = .null →
      (Load noModuleFaults noSeedFaults st guildSnowflake).2.1 = .panicked) := by
  have hs := seedDefaultEvents_ok st.db
  have hrec : reconcile commands none false = none := by decide
  constructor
  · intro hc
    unfold Load
    simp only [ReadModule, queryFirst, noModuleFaults, hm, Bool.false_eq_true, if_false]
    rw [hs]
    simp only [hE, Bool.not_true, Bool.false_eq_true, if_false, hc, unmarshalCommands]
  · intro hc
    unfold Load
    simp only [ReadModule, queryFirst, noModuleFaults, hm, Bool.false_eq_true, if_false]
    rw [hs]
    simp only [hE, Bool.not_true, Bool.false_eq_true, if_false, hc, unmarshalCommands, hrec]

/-- C12 (as stated) fails on a disabled module: `Load` returns `nil` at step 3,
before the command flags are looked at, so the persisted flag map of a disabled
module that knows `daily` only still has no entry for `leaderboard`, `give` and
`giveall` after a successful `Load`. -/
theorem load_skips_disabled_module :
    (Load noModuleFaults noSeedFaults disabledStore "G1").2.1 = .returned none ∧
      ReadModule false (Load noModuleFaults noSeedFaults disabledStore "G1").1 "G1"
        = .ok { ID := 2, GuildSnowflake := "G1", Name := "Economy",
                Description := "Points & achievements system", Enabled := false,
                Config := "\x7b\x7d", Commands := .object [("daily", false)] } ∧
      unmarshalCommands (.object [("daily", false)]) = some (some [("daily", false)]) ∧
      mapGet (some [("daily", false)]) "leaderboard" = none ∧
      mapGet (some [("daily", false)]) "give" = none ∧
      mapGet (some [("daily", false)]) "giveall" = none := by
  refine ⟨by decide, by rfl, by rfl, by decide, by decide, by decide⟩

/-- C12 (amended). On a store that answers, with valid primary keys in the table
of modules:
(1) when the guild has no module row, `Load` returns `nil` and has appended a
row with `Enabled = true` and the four commands `daily`, `leaderboard`, `give`,
`giveall` all enabled;
(2) when the guild has a disabled module row, `Load` returns `nil` and leaves
the table of modules as it was (no command flag is added);
(3) when the guild has an enabled module row `mod` and `Load` returns `nil`,
the stored flags were a JSON object, the row read back is `mod` with reconciled
flags, every other module row is as it was, the reconciled flags hold an entry
for each of the four commands, every entry that existed keeps its value and
every command that had no entry is enabled;
(4) in case (3) `Load` does return `nil` whenever the stored flags are a JSON
object. -/
theorem load_reconciles_commands (st : Store) (guildSnowflake : String)
    (hv : ValidKeys Module.ID st.modules) :
    (First Module.ID (moduleIs guildSnowflake) st.modules = none →
      (Load noModuleFaults noSeedFaults st guildSnowflake).2.1 = .returned none ∧
      (Load noModuleFaults noSeedFaults st guildSnowflake).1.modules
        = st.modules ++
            [{ ID := freshID Module.ID st.modules, GuildSnowflake := guildSnowflake,
               Name := name, Description := description, Enabled := true,
               Config := "\x7b\x7d",
               Commands := .object [("daily", true), ("leaderboard", true), ("give", true),
                                    ("giveall", true)] }]) ∧
    (∀ mod, First Module.ID (moduleIs guildSnowflake) st.modules = some mod →
      mod.Enabled = false →
      (Load noModuleFaults noSeedFaults st guildSnowflake).2.1 = .returned none ∧
      (Load noModuleFaults noSeedFaults st guildSnowflake).1.modules = st.modules) ∧
    (∀ mod, First Module.ID (moduleIs guildSnowflake) st.modules = some mod →
      mod.Enabled = true →
      (Load noModuleFaults noSeedFaults st guildSnowflake).2.1 = .returned none →
      ∃ flags flags1, mod.Commands = .object flags ∧
        ReadModule false (Load noModuleFaults noSeedFaults st guildSnowflake).1 guildSnowflake
          = .ok { mod with Commands := .object flags1 } ∧
        (Load noModuleFaults noSeedFaults st guildSnowflake).1.modules
          = st.modules.map
              (fun r => if r.ID = mod.ID then { mod with Commands := .object flags1 } else r) ∧
        (∀ k ∈ ["daily", "leaderboard", "give", "giveall"], (flags1.lookup k).isSome) ∧
        (∀ k v, flags.lookup k = some v → flags1.lookup k = some v) ∧
        (∀ k ∈ ["daily", "leaderboard", "give", "giveall"],
          flags.lookup k = none → flags1.lookup k = some true)) ∧
    (∀ mod flags, First Module.ID (moduleIs guildSnowflake) st.modules = some mod →
      mod.Enabled = true → mod.Commands = .object flags →
      (Load noModuleFaults noSeedFaults st guildSnowflake).2.1 = .returned none) := by
  have hnames : ∀ k ∈ ["daily", "leaderboard", "give", "giveall"],
      ∃ c ∈ commands, c.Name = k := by decide
  refine ⟨?_, ?_, ?_, ?_⟩
  · intro hnone
    rw [load_absent st guildSnowflake hnone]
    exact ⟨rfl, rfl⟩
  · intro mod hm hE
    rw [load_disabled st guildSnowflake mod hm hE]
    exact ⟨rfl, rfl⟩
  · intro mod hm hE hret
    cases hc : mod.Commands with
    | malformed =>
      rw [(load_enabled_not_object st guildSnowflake mod hm hE).1 hc] at hret
      cases hret
    | null =>
      rw [(load_enabled_not_object st guildSnowflake mod hm hE).2 hc] at hret
      cases hret
    | object flags =>
      obtain ⟨flags1, hload, h2, h3, h4⟩ := load_enabled st guildSnowflake mod hv hm hE flags hc
      refine ⟨flags, flags1, rfl, ?_, ?_, ?_, h2, ?_⟩
      · rw [hload]
        exact (queryFirst_ok _ _ _ _ _).2
          ⟨rfl, first_after_commands st guildSnowflake mod hv hm (.object flags1)⟩
      · rw [hload]
      · intro k hk
        obtain ⟨c, hcm, rfl⟩ := hnames k hk
        exact h3 c hcm
      · intro k hk
        obtain ⟨c, hcm, rfl⟩ := hnames k hk
        exact h4 c hcm
  · intro mod flags hm hE hc
    obtain ⟨flags1, hload, _⟩ := load_enabled st guildSnowflake mod hv hm hE flags hc
    rw [hload]

theorem load_reconciles_commands_witness :
    ValidKeys Module.ID enabledStore.modules ∧
      (Load noModuleFaults noSeedFaults enabledStore "G1").2.1 = .returned none ∧
      ReadModule false (Load noModuleFaults noSeedFaults enabledStore "G1").1 "G1"
        = .ok { ID := 2, GuildSnowflake := "G1", Name := "Economy",
                Description := "Points & achievements system", Enabled := true,
                Config := "\x7b\x7d",
                Commands := .object [("daily", false), ("leaderboard", true), ("give", true),
                                     ("giveall", true)] } ∧
      (Load noModuleFaults noSeedFaults emptyStore "G1").2.1 = .returned none ∧
      (Load noModuleFaults noSeedFaults emptyStore "G1").1.modules
        = emptyStore.modules ++
            [{ ID := freshID Module.ID emptyStore.modules, GuildSnowflake := "G1",
               Name := name, Description := description, Enabled := true,
               Config := "\x7b\x7d",
               Commands := .object [("daily", true), ("leaderboard", true), ("give", true),
                                    ("giveall", true)] }] :=
  ⟨by decide,
    (load_reconciles_commands enabledStore "G1" (by decide)).2.2.2
      { ID := 2, GuildSnowflake := "G1", Name := "Economy",
        Description := "Points & achievements system", Enabled := true,
        Config := "\x7b\x7d", Commands := .object [("daily", false)] }
      [("daily", false)] (by decide) rfl rfl,
    by rfl,
    ((load_reconciles_commands emptyStore "G1" (by decide)).1 (by decide)).1,
    ((load_reconciles_commands emptyStore "G1" (by decide)).1 (by decide)).2⟩

/-! ## C13: the limit and interleaved calls -/

/-- A call in flight that no other call interleaves with does what `LogEvent`
does. -/
theorem runAlone_eq_logEvent (c : Call) (db : DB) :
    runAlone c db
      = ((LogEvent c.faults db c.guildID c.userID c.eventKey).1,
          .done (LogEvent c.faults db c.guildID c.userID c.eventKey).2) := by
  have ed : ∀ (s : DB) (err : Option LogEventError),
      stepCall c s (.done err) = (s, .done err) := fun _ _ => rfl
  cases h : queryFirst c.faults.findDef EconomyEventDefinition.ID (keyIs c.eventKey) db.defs with
  | error e =>
    rw [logEvent_of_error _ _ _ _ _ e h]
    have e1 : stepCall c db .start = (db, .done (some (.unknownEvent c.eventKey e))) := by
      simp only [stepCall, h]
    simp only [runAlone, e1, ed]
  | ok d =>
    have e1 : stepCall c db .start = (db, .looked d) := by
      simp only [stepCall, h]
    have e2 : stepCall c db (.looked d)
        = (db, .counted d
            (if c.faults.countLogs then 0 else countLogs db d.ID c.guildID c.userID)) := rfl
    by_cases hg : limitHit c.faults db d c.guildID c.userID
    · rw [logEvent_of_limit _ _ _ _ _ d h hg]
      unfold limitHit at hg
      have e3 : stepCall c db (.counted d
          (if c.faults.countLogs then 0 else countLogs db d.ID c.guildID c.userID))
          = (db, .done (some (.occurrenceLimitReached c.eventKey))) := by
        simp only [stepCall]
        rw [if_pos hg]
      simp only [runAlone, e1, e2, e3, ed]
    · cases hc : c.faults.createLog with
      | true =>
        rw [logEvent_of_createLog_fault _ _ _ _ _ d h hg hc]
        unfold limitHit at hg
        have e3 : stepCall c db (.counted d
            (if c.faults.countLogs then 0 else countLogs db d.ID c.guildID c.userID))
            = (db, .done (some (.store .other))) := by
          simp only [stepCall]
          rw [if_neg hg, if_pos hc]
        simp only [runAlone, e1, e2, e3, ed]
      | false =>
        have e3 : stepCall c db (.counted d
            (if c.faults.countLogs then 0 else countLogs db d.ID c.guildID c.userID))
            = (afterInsert db d c.guildID c.userID, .inserted d) := by
          have hg1 := hg
          unfold limitHit at hg1
          simp only [stepCall]
          rw [if_neg hg1]
          simp [hc, afterInsert, newLogRow]
        cases hu : c.faults.findUser with
        | true =>
          rw [logEvent_of_findUser_fault _ _ _ _ _ d h hg hc hu]
          have e4 : stepCall c (afterInsert db d c.guildID c.userID) (.inserted d)
              = (afterInsert db d c.guildID c.userID, .done (some (.store .other))) := by
            simp [stepCall, queryFirst, hu]
          simp only [runAlone, e1, e2, e3, e4, ed]
        | false =>
          cases hfu : First UserEconomy.ID (userIs c.guildID c.userID) db.users with
          | none =>
            rw [logEvent_of_new_user _ _ _ _ _ d h hg hc hu hfu]
            have e4 : stepCall c (afterInsert db d c.guildID c.userID) (.inserted d)
                = (afterInsert db d c.guildID c.userID, .found d none) := by
              simp [stepCall, queryFirst, hu, afterInsert, hfu]
            cases hcu : c.faults.createUser with
            | true =>
              have e5 : stepCall c (afterInsert db d c.guildID c.userID) (.found d none)
                  = (afterInsert db d c.guildID c.userID, .done (some (.store .other))) := by
                simp [stepCall, hcu]
              simp only [runAlone, e1, e2, e3, e4, e5, if_true]
            | false =>
              have e5 : stepCall c (afterInsert db d c.guildID c.userID) (.found d none)
                  = ({ afterInsert db d c.guildID c.userID with
                        users := db.users ++ [{ ID := freshID UserEconomy.ID db.users,
                                                GuildSnowflake := c.guildID,
                                                UserSnowflake := c.userID,
                                                Points := d.Points }] }, .done none) := by
                simp [stepCall, hcu, afterInsert]
              simp only [runAlone, e1, e2, e3, e4, e5, Bool.false_eq_true, if_false]
          | some ue =>
            rw [logEvent_of_old_user _ _ _ _ _ d ue h hg hc hu hfu]
            have e4 : stepCall c (afterInsert db d c.guildID c.userID) (.inserted d)
                = (afterInsert db d c.guildID c.userID, .found d (some ue)) := by
              simp [stepCall, queryFirst, hu, afterInsert, hfu]
            cases hsu : c.faults.saveUser with
            | true =>
              have e5 : stepCall c (afterInsert db d c.guildID c.userID) (.found d (some ue))
                  = (afterInsert db d c.guildID c.userID, .done (some (.store .other))) := by
                simp [stepCall, hsu]
              simp only [runAlone, e1, e2, e3, e4, e5, if_true]
            | false =>
              have e5 : stepCall c (afterInsert db d c.guildID c.userID) (.found d (some ue))
                  = ({ afterInsert db d c.guildID c.userID with
                        users := saveUser db.users
                          { ue with Points := (ue.Points + d.Points) % uintSize } },
                      .done none) := by
                simp [stepCall, hsu, afterInsert]
              simp only [runAlone, e1, e2, e3, e4, e5, Bool.false_eq_true, if_false]

/-- C13 (as stated) fails: nothing orders the store calls of two `LogEvent`
calls in flight.  With `DAILY` limited to one occurrence, when both calls count
(step 2) before either inserts (step 4), both return `nil` and the user ends
with two log rows of `DAILY` and twice the points. -/
theorem logEvent_interleaved_exceeds_limit :
    First EconomyEventDefinition.ID (keyIs "DAILY") seededDB.defs
        = some { ID := 1, Key := "DAILY", Name := "Daily Reward", Points := 85,
                 MaxOccurrence := 1 } ∧
      (runSchedule [0, 0, 1, 1, 0, 1, 0, 0, 1, 1] twoClaims).tasks.map (fun t => t.2)
        = [.done none, .done none] ∧
      countLogs (runSchedule [0, 0, 1, 1, 0, 1, 0, 0, 1, 1] twoClaims).db 1 "G1" "U1" = 2 ∧
      GetUserPoints false (runSchedule [0, 0, 1, 1, 0, 1, 0, 0, 1, 1] twoClaims).db "G1" "U1"
        = (170, none) := by
  decide

/-- One award on a store that answers, for a limited definition: it succeeds
and adds one to the count while the count is below the limit, and is refused
with the store unchanged once the limit is reached. -/
theorem award_step (db : DB) (guildID userID eventKey : String)
    (d : EconomyEventDefinition)
    (hd : First EconomyEventDefinition.ID (keyIs eventKey) db.defs = some d)
    (hN : 0 < d.MaxOccurrence) :
    (countLogs db d.ID guildID userID < d.MaxOccurrence →
      (LogEvent noFaults db guildID userID eventKey).2 = none ∧
      (LogEvent noFaults db guildID userID eventKey).1.defs = db.defs ∧
      countLogs (LogEvent noFaults db guildID userID eventKey).1 d.ID guildID userID
        = countLogs db d.ID guildID userID + 1) ∧
    (d.MaxOccurrence ≤ countLogs db d.ID guildID userID →
      LogEvent noFaults db guildID userID eventKey
        = (db, some (.occurrenceLimitReached eventKey))) := by
  have hq : queryFirst noFaults.findDef EconomyEventDefinition.ID (keyIs eventKey) db.defs
      = .ok d := (queryFirst_ok _ _ _ _ _).2 ⟨rfl, hd⟩
  constructor
  · intro hlt
    have hg : ¬ limitHit noFaults db d guildID userID := by
      simp only [limitHit, noFaults, Bool.false_eq_true, if_false, not_and, not_le]
      exact fun _ => hlt
    have hrow : logIs d.ID guildID userID (newLogRow db d guildID userID) = true := by
      simp [logIs, newLogRow]
    have hcnt : ∀ users : List UserEconomy,
        countLogs { afterInsert db d guildID userID with users := users } d.ID guildID userID
          = countLogs db d.ID guildID userID + 1 := by
      intro users
      have := countLogs_append db (newLogRow db d guildID userID) d.ID guildID userID
      rw [hrow] at this
      simpa [countLogs, afterInsert] using this
    cases hfu : First UserEconomy.ID (userIs guildID userID) db.users with
    | none =>
      rw [logEvent_of_new_user noFaults db guildID userID eventKey d hq hg rfl rfl hfu]
      simp only [noFaults, Bool.false_eq_true, if_false]
      exact ⟨trivial, rfl, hcnt _⟩
    | some ue =>
      rw [logEvent_of_old_user noFaults db guildID userID eventKey d ue hq hg rfl rfl hfu]
      simp only [noFaults, Bool.false_eq_true, if_false]
      exact ⟨trivial, rfl, hcnt _⟩
  · intro hge
    apply logEvent_of_limit noFaults db guildID userID eventKey d hq
    simp only [limitHit, noFaults, Bool.false_eq_true, if_false]
    exact ⟨hN, hge⟩

theorem callResults_replicate (n : Nat) (db : DB) (guildID userID eventKey : String)
    (d : EconomyEventDefinition)
    (hd : First EconomyEventDefinition.ID (keyIs eventKey) db.defs = some d)
    (hN : 0 < d.MaxOccurrence)
    (hc : countLogs db d.ID guildID userID ≤ d.MaxOccurrence) :
    callResults db (List.replicate n (award guildID userID eventKey))
      = List.replicate (min n (d.MaxOccurrence - countLogs db d.ID guildID userID)) none
        ++ List.replicate (n - (d.MaxOccurrence - countLogs db d.ID guildID userID))
            (some (.occurrenceLimitReached eventKey)) := by
  induction n generalizing db with
  | zero => simp [callResults]
  | succ n ih =>
    have hstep := award_step db guildID userID eventKey d hd hN
    simp only [List.replicate_succ, callResults, award]
    by_cases hlt : countLogs db d.ID guildID userID < d.MaxOccurrence
    · obtain ⟨h1, h2, h3⟩ := hstep.1 hlt
      have ih1 := ih (LogEvent noFaults db guildID userID eventKey).1 (by rw [h2]; exact hd)
        (by rw [h3]; omega)
      simp only [award] at ih1
      rw [h1, ih1, h3]
      have e1 : min (n + 1) (d.MaxOccurrence - countLogs db d.ID guildID userID)
          = min n (d.MaxOccurrence - (countLogs db d.ID guildID userID + 1)) + 1 := by omega
      have e2 : n + 1 - (d.MaxOccurrence - countLogs db d.ID guildID userID)
          = n - (d.MaxOccurrence - (countLogs db d.ID guildID userID + 1)) := by omega
      rw [e1, e2, List.replicate_succ, List.cons_append]
    · have hge : d.MaxOccurrence ≤ countLogs db d.ID guildID userID := by omega
      have h1 := hstep.2 hge
      have ih1 := ih db hd hc
      simp only [award] at ih1
      rw [h1]
      simp only
      rw [ih1]
      have e0 : d.MaxOccurrence - countLogs db d.ID guildID userID = 0 := by omega
      simp [e0, List.replicate_succ]

/-- C13 (amended). For `n` calls of `LogEvent` against one (guild, user,
eventKey) whose definition has `MaxOccurrence = N > 0`, run one after another
(each call returns before the next starts) on a store that answers, from a
store in which the user has `c ≤ N` log rows of the definition: the first
`N - c` calls succeed and every later call fails with the occurrence-limit
error; hence at most `N` calls succeed and the `(N+1)`th and later calls fail.
Nothing of the kind holds when the store calls of several calls interleave:
the code holds no lock and opens no transaction. -/
theorem logEvent_limit_sequential (n : Nat) (db : DB) (guildID userID eventKey : String)
    (d : EconomyEventDefinition)
    (hd : First EconomyEventDefinition.ID (keyIs eventKey) db.defs = some d)
    (hN : 0 < d.MaxOccurrence)
    (hc : countLogs db d.ID guildID userID ≤ d.MaxOccurrence) :
    callResults db (List.replicate n (award guildID userID eventKey))
        = List.replicate (min n (d.MaxOccurrence - countLogs db d.ID guildID userID)) none
          ++ List.replicate (n - (d.MaxOccurrence - countLogs db d.ID guildID userID))
              (some (.occurrenceLimitReached eventKey)) ∧
      (callResults db (List.replicate n (award guildID userID eventKey))).count none
        ≤ d.MaxOccurrence ∧
      ∀ i, d.MaxOccurrence ≤ i → i < n →
        (callResults db (List.replicate n (award guildID userID eventKey)))[i]?
          = some (some (.occurrenceLimitReached eventKey)) := by
  have heq := callResults_replicate n db guildID userID eventKey d hd hN hc
  refine ⟨heq, ?_, ?_⟩
  · rw [heq, List.count_append, List.count_replicate, List.count_replicate]
    simp only [beq_self_eq_true, if_true]
    have : (some (LogEventError.occurrenceLimitReached eventKey) == none) = false := rfl
    simp only [this, Bool.false_eq_true, if_false]
    omega
  · intro i hi hin
    rw [heq, List.getElem?_append_right (by simp; omega), List.getElem?_replicate]
    simp only [List.length_replicate]
    rw [if_pos (by omega)]

theorem logEvent_limit_sequential_witness :
    callResults seededDB (List.replicate 3 (award "G1" "U1" "DAILY"))
        = [none, some (.occurrenceLimitReached "DAILY"),
           some (.occurrenceLimitReached "DAILY")] ∧
      (callResults seededDB (List.replicate 3 (award "G1" "U1" "DAILY"))).count none ≤ 1 :=
  ⟨(logEvent_limit_sequential 3 seededDB "G1" "U1" "DAILY"
      { ID := 1, Key := "DAILY", Name := "Daily Reward", Points := 85, MaxOccurrence := 1 }
      (by decide) (by decide) (by decide)).1.trans (by decide),
    (logEvent_limit_sequential 3 seededDB "G1" "U1" "DAILY"
      { ID := 1, Key := "DAILY", Name := "Daily Reward", Points := 85, MaxOccurrence := 1 }
      (by decide) (by decide) (by decide)).2.1⟩

end Economy
